import Mathlib

/-!
# WorkScheduler (src/work/WorkScheduler.cpp)

A shallow embedding of the self-rearming crank loop of `WorkScheduler`:
`create`, `doWork`, `scheduleOne` together with the timer handler it registers,
and `shutdown`.

The base class `Work`, the application clock, `YieldTimer` and `VirtualTimer`
are not part of the translation unit.  The base class and the clock are taken
as a parameter (`Work E F`, an interface over an arbitrary external state `E`
and fault type `F`); the two timers are modelled from the specification.

Time is a natural number of clock ticks (nanoseconds).
-/

namespace stellar

/-! ## Data model -/

/-- Modelled from the spec: the enumeration `BasicWork::State`, declared in a
header missing from the sources: the aggregate state of a work node (section 3:
running, waiting, success, failure, aborted), under the names the code uses. -/
inductive State where
  | WORK_RUNNING
  | WORK_WAITING
  | WORK_SUCCESS
  | WORK_FAILURE
  | WORK_ABORTED
  deriving DecidableEq, Repr

/-- The terminal states of a work node. -/
def State.terminal : State → Bool
  | .WORK_SUCCESS => true
  | .WORK_FAILURE => true
  | .WORK_ABORTED => true
  | _ => false

/-- Ghost record of the calls that `WorkScheduler.cpp` makes into its
collaborators, in program order: `startWork` (with its parent argument, `none`
for `nullptr`), `crankWork`, `Work::shutdown`, and `async_wait` on the trigger
timer (with the expiry set by the preceding `expires_from_now`). -/
inductive Call where
  | startWork (parent : Option Unit)
  | crankWork
  | shutdown
  | async_wait (expiry : Nat)
  deriving DecidableEq, Repr

/-- Modelled from the spec: the base class `Work` and the application clock,
whose code is outside `WorkScheduler.cpp` (spec section 6).  `E` is the state
these collaborators own (the work tree rooted at the scheduler, the clock);
`F` is the type of faults an advancement step may raise.
`crankWork` yields the state it leaves behind and the fault it raised, if any.
The re-arm flag and the trigger timer are private to `WorkScheduler`, so none
of these operations changes them; a call back into `scheduleOne` from inside
one of them is not modelled. -/
structure Work (E F : Type) where
  startWork : Option Unit → E → E
  crankWork : E → E × Option F
  getState : E → State
  isDone : E → Bool
  anyChildRunning : E → Bool
  shutdown : E → E
  now : E → Nat

/-- A duration of `n` milliseconds, in clock ticks. -/
def milliseconds (n : Nat) : Nat := n * 1000000

/-- The constant `WorkScheduler::TRIGGER_PERIOD`: a crank burst is triggered
every 50 ms. -/
def TRIGGER_PERIOD : Nat := milliseconds 50

/-- Modelled from the spec: the crank budget guard `YieldTimer` (section 4.1),
missing from the sources: built from a clock reading and an allotted duration. -/
structure YieldTimer where
  start : Nat
  allotted : Nat
  deriving DecidableEq, Repr

/-- Modelled from the spec: `YieldTimer::shouldKeepGoing` (section 4.1), missing
from the sources: true while the time elapsed since construction is below the
allotted duration, false thereafter. -/
def YieldTimer.shouldKeepGoing (yt : YieldTimer) (now : Nat) : Bool :=
  decide (now - yt.start < yt.allotted)

/-- Modelled from the spec: the expiry of every handler registered on the
trigger timer `mTriggerTimer` that the reactor has not invoked yet.  The timer
class is missing from the sources (section 3, Timer Handle: a pending callback
with a fire time, owned by the reactor once armed; section 6: fires once after a
duration).  `async_wait` adds a handler, a firing removes it. -/
abbrev TimerQueue := List Nat

/-- Modelled from the spec: the data members `WorkScheduler` adds to its base
class, declared in a header missing from the sources: the re-arm flag
`mScheduled`, false in a new object (section 4.3: the guard starts idle).  The
handlers of the member `mTriggerTimer` are kept in the `TimerQueue`. -/
structure WorkScheduler where
  mScheduled : Bool
  deriving DecidableEq, Repr

/-- The scheduler in its host.  `app` is the state of the collaborators;
`self` is what `weak.lock()` yields (`none` once the scheduler is destroyed);
`pending` is the queue of outstanding handlers of `mTriggerTimer`;
`calls` is the ghost call record. -/
structure World (E : Type) where
  app : E
  self : Option WorkScheduler
  pending : TimerQueue
  calls : List Call
  deriving DecidableEq, Repr

/-- How far a timer handler got: still inside the crank loop after the cranks
it was allowed (`running`), returned normally, or left by raising a fault. -/
inductive Status (F : Type) where
  | running
  | returned
  | raised (fault : F)
  deriving DecidableEq, Repr

variable {E F : Type}

/-! ## Operations -/

/-- The function `WorkScheduler::create`: construct, `startWork(nullptr)`, one
`crankWork`, return the scheduler.  When the crank raises, the fault leaves `create` and the
new object is destroyed. -/
def create (api : Work E F) (app : E) : World E × Option F :=
  let started := api.startWork none app
  match api.crankWork started with
  | (cranked, none) =>
    ({ app := cranked, self := some { mScheduled := false }, pending := [],
       calls := [Call.startWork none, Call.crankWork] }, none)
  | (cranked, some fault) =>
    ({ app := cranked, self := none, pending := [],
       calls := [Call.startWork none, Call.crankWork] }, some fault)

/-- The function `WorkScheduler::doWork`: the state reported, and the world it
leaves. -/
def doWork (api : Work E F) (w : World E) : State × World E :=
  if api.anyChildRunning w.app = true then (State.WORK_RUNNING, w)
  else (State.WORK_WAITING, w)

/-- The function `WorkScheduler::scheduleOne`: nothing when the weak reference
does not resolve or the flag is set; otherwise set the flag, set the expiry to
`now + TRIGGER_PERIOD` and register the handler. -/
def scheduleOne (api : Work E F) (w : World E) : World E :=
  match w.self with
  | none => w
  | some self =>
    if self.mScheduled = true then w
    else
      { w with
        self := some { self with mScheduled := true }
        pending := w.pending ++ [api.now w.app + TRIGGER_PERIOD]
        calls := w.calls ++ [Call.async_wait (api.now w.app + TRIGGER_PERIOD)] }

/-- The `do { crankWork(); } while (getState() == WORK_RUNNING &&
yt.shouldKeepGoing())` loop of the handler, run for at most `fuel` cranks.
Yields the collaborators' state, the call record, and whether the loop is still
running, has exited, or was left by a fault. -/
def crankLoop (api : Work E F) (yt : YieldTimer) :
    Nat → E → List Call → E × List Call × Status F
  | 0, app, calls => (app, calls, Status.running)
  | fuel + 1, app, calls =>
    match api.crankWork app with
    | (cranked, some fault) => (cranked, calls ++ [Call.crankWork], Status.raised fault)
    | (cranked, none) =>
      if api.getState cranked = State.WORK_RUNNING
          ∧ yt.shouldKeepGoing (api.now cranked) = true then
        crankLoop api yt fuel cranked (calls ++ [Call.crankWork])
      else (cranked, calls ++ [Call.crankWork], Status.returned)

/-- The budget guard a timer handler builds on entry in world `w`:
`YieldTimer yt(clock, 1 ms)`. -/
def burstTimer (api : Work E F) (w : World E) : YieldTimer :=
  { start := api.now w.app, allotted := milliseconds 1 }

/-- The handler `scheduleOne` registers on the trigger timer, run for at most
`fuel` cranks: nothing when the weak reference does not resolve; otherwise a
crank burst under a 1 ms `YieldTimer`, then the flag is cleared, then the fault
is re-raised or, when the state is `WORK_RUNNING`, `scheduleOne` is called. -/
def timerCallback (api : Work E F) (fuel : Nat) (w : World E) : World E × Status F :=
  match w.self with
  | none => (w, Status.returned)
  | some innerSelf =>
    let yt : YieldTimer := burstTimer api w
    match crankLoop api yt fuel w.app w.calls with
    | (app, calls, Status.running) =>
      ({ w with app := app, calls := calls }, Status.running)
    | (app, calls, Status.raised fault) =>
      ({ w with app := app, calls := calls, self := some { innerSelf with mScheduled := false } },
        Status.raised fault)
    | (app, calls, Status.returned) =>
      let cleared : World E :=
        { w with app := app, calls := calls, self := some { innerSelf with mScheduled := false } }
      if api.getState app = State.WORK_RUNNING then (scheduleOne api cleared, Status.returned)
      else (cleared, Status.returned)

/-- The reactor invokes the `i`-th outstanding handler: it leaves the reactor
queue and runs. -/
def timerFires (api : Work E F) (fuel i : Nat) (w : World E) : World E × Status F :=
  timerCallback api fuel { w with pending := w.pending.eraseIdx i }

/-- The function `WorkScheduler::shutdown`, a member function (called on a live
object): nothing when `isDone()`; otherwise `Work::shutdown()`, then `scheduleOne`. -/
def shutdown (api : Work E F) (w : World E) : World E :=
  match w.self with
  | none => w
  | some _ =>
    if api.isDone w.app = true then w
    else scheduleOne api
      { w with app := api.shutdown w.app, calls := w.calls ++ [Call.shutdown] }

/-- The last owner releases the scheduler (`~WorkScheduler`): from now on the
weak reference does not resolve.  Handlers already registered stay with the
reactor. -/
def destroy (w : World E) : World E := { w with self := none }

/-! ## Runs of the scheduler -/

/-- The collaborators' state after `k` successive cranks. -/
def afterCranks (api : Work E F) : Nat → E → E
  | 0, app => app
  | k + 1, app => afterCranks api k (api.crankWork app).1

/-- The loop condition of the crank burst, read in state `app`. -/
def keepsCranking (api : Work E F) (yt : YieldTimer) (app : E) : Prop :=
  api.getState app = State.WORK_RUNNING ∧ yt.shouldKeepGoing (api.now app) = true

instance instDecidableKeepsCranking (api : Work E F) (yt : YieldTimer) (app : E) :
    Decidable (keepsCranking api yt app) := by
  unfold keepsCranking; infer_instance

/-- One operation on the scheduler: a `scheduleOne` call, a timer firing that has
ended (by returning or by raising), a `shutdown` call, or a change the
collaborators make to their own state (time passing, an I/O completion). -/
inductive Step (api : Work E F) : World E → World E → Prop where
  | scheduleOne (w : World E) : Step api w (scheduleOne api w)
  | timerFires (w : World E) (fuel i : Nat) (hi : i < w.pending.length)
      (hend : (timerFires api fuel i w).2 ≠ Status.running) :
      Step api w (timerFires api fuel i w).1
  | shutdown (w : World E) : Step api w (shutdown api w)
  | collaborators (w : World E) (f : E → E) : Step api w { w with app := f w.app }

/-- The worlds reachable from `w0` by a finite sequence of operations. -/
inductive Reachable (api : Work E F) (w0 : World E) : World E → Prop where
  | init : Reachable api w0 w0
  | step {w w1 : World E} (h : Reachable api w0 w) (hs : Step api w w1) : Reachable api w0 w1

/-- The expiries of the waits registered so far, oldest first: the `async_wait`
entries of the call record. -/
def armedAt : List Call → List Nat
  | [] => []
  | Call.async_wait expiry :: calls => expiry :: armedAt calls
  | Call.startWork _ :: calls => armedAt calls
  | Call.crankWork :: calls => armedAt calls
  | Call.shutdown :: calls => armedAt calls

/-- The clock is monotonic: no operation of the collaborators sets it back. -/
def MonotonicClock (api : Work E F) : Prop :=
  (∀ app, api.now app ≤ api.now (api.crankWork app).1) ∧
  (∀ app, api.now app ≤ api.now (api.shutdown app))

/-- One operation on the scheduler under a reactor that never invokes a handler
before its expiry, the collaborators never setting the clock back on their own:
as `Step`, with the firing handler due and the clock not decreasing. -/
inductive TimedStep (api : Work E F) : World E → World E → Prop where
  | scheduleOne (w : World E) : TimedStep api w (scheduleOne api w)
  | timerFires (w : World E) (fuel i : Nat) (hi : i < w.pending.length)
      (hdue : w.pending.get ⟨i, hi⟩ ≤ api.now w.app)
      (hend : (timerFires api fuel i w).2 ≠ Status.running) :
      TimedStep api w (timerFires api fuel i w).1
  | shutdown (w : World E) : TimedStep api w (shutdown api w)
  | collaborators (w : World E) (f : E → E) (hclock : api.now w.app ≤ api.now (f w.app)) :
      TimedStep api w { w with app := f w.app }

/-- The worlds reachable from `w0` by a finite sequence of timed operations. -/
inductive TimedReachable (api : Work E F) (w0 : World E) : World E → Prop where
  | init : TimedReachable api w0 w0
  | step {w w1 : World E} (h : TimedReachable api w0 w) (hs : TimedStep api w w1) :
      TimedReachable api w0 w1

/-! ## A concrete collaborator, used to exercise the definitions -/

/-- A small work tree and clock: `todo` cranks of runnable work are left, every
crank takes `cost` ticks, and the crank raises fault `7` when `bomb` is set. -/
structure Toy where
  clock : Nat
  todo : Nat
  cost : Nat
  bomb : Bool
  stopping : Bool
  deriving DecidableEq, Repr

/-- The collaborator interface of `Toy`. -/
def toyApi : Work Toy Nat where
  startWork := fun _ t => t
  crankWork := fun t =>
    if t.bomb = true then ({ t with bomb := false }, some 7)
    else ({ t with clock := t.clock + t.cost, todo := t.todo - 1 }, none)
  getState := fun t =>
    if 0 < t.todo then State.WORK_RUNNING
    else if t.stopping = true then State.WORK_ABORTED
    else State.WORK_WAITING
  isDone := fun t => t.stopping && decide (t.todo = 0)
  anyChildRunning := fun t => decide (0 < t.todo)
  shutdown := fun t => { t with stopping := true, todo := t.todo + 1 }
  now := fun t => t.clock

/-- A dormant toy world: flag clear, no handler outstanding. -/
def toyIdle (todo cost : Nat) (bomb : Bool) : World Toy :=
  { app := { clock := 1000, todo := todo, cost := cost, bomb := bomb, stopping := false }
    self := some { mScheduled := false }
    pending := []
    calls := [] }

/-- An armed toy world: flag set, one handler outstanding. -/
def toyArmed (todo cost : Nat) (bomb : Bool) : World Toy :=
  scheduleOne toyApi (toyIdle todo cost bomb)

/-- A toy world whose tree has finished winding down: `isDone()` holds. -/
def toyDone : World Toy :=
  { app := { clock := 1000, todo := 0, cost := 400000, bomb := false, stopping := true }
    self := some { mScheduled := false }
    pending := []
    calls := [] }

/-- Fifty milliseconds pass in a toy world. -/
def toyLater (w : World Toy) : World Toy :=
  { w with app := (fun t : Toy => { t with clock := t.clock + 50000000 }) w.app }

/-- A toy run: a dormant scheduler is armed, 50 ms pass, the handler fires (three
cranks of 0.4 ms) and re-arms. -/
def toyRun : World Toy :=
  (timerFires toyApi 10 0 (toyLater (toyArmed 5 400000 false))).1

/-! # Theorems -/

/-! ## Basic facts about `scheduleOne` -/

theorem scheduleOne_dead (api : Work E F) (w : World E) (h : w.self = none) :
    scheduleOne api w = w := by
  simp [scheduleOne, h]

theorem scheduleOne_armed (api : Work E F) (w : World E) (s : WorkScheduler)
    (h : w.self = some s) (hs : s.mScheduled = true) : scheduleOne api w = w := by
  simp [scheduleOne, h, hs]

theorem scheduleOne_idle (api : Work E F) (w : World E) (s : WorkScheduler)
    (h : w.self = some s) (hs : s.mScheduled = false) :
    scheduleOne api w =
      { app := w.app
        self := some { mScheduled := true }
        pending := w.pending ++ [api.now w.app + TRIGGER_PERIOD]
        calls := w.calls ++ [Call.async_wait (api.now w.app + TRIGGER_PERIOD)] } := by
  simp [scheduleOne, h, hs]

/-! ## C1 -/

/-- C1: `scheduleOne` is idempotent while armed.  On a live scheduler whose
`mScheduled` flag is set, `scheduleOne` returns the world unchanged (flag,
outstanding handlers and their expiry, collaborator state, call record: nothing
is armed).  Hence on a live scheduler with no handler outstanding (its flag,
set only while a handler is outstanding, is then clear), two calls in succession
give the same world as one call, with the flag set and exactly one handler
outstanding, expiring `TRIGGER_PERIOD` after the clock reading of the first
call. -/
theorem scheduleOne_idempotent_while_armed (api : Work E F) (w : World E) (s : WorkScheduler)
    (hlive : w.self = some s) :
    (s.mScheduled = true → scheduleOne api w = w) ∧
    ((s.mScheduled = true → w.pending ≠ []) → w.pending = [] →
      scheduleOne api (scheduleOne api w) = scheduleOne api w ∧
      (scheduleOne api w).self = some { mScheduled := true } ∧
      (scheduleOne api w).pending = [api.now w.app + TRIGGER_PERIOD] ∧
      (scheduleOne api (scheduleOne api w)).pending.length = 1) := by
  refine ⟨fun hs => scheduleOne_armed api w s hlive hs, fun hguard hp => ?_⟩
  have hs : s.mScheduled = false := by
    cases hflag : s.mScheduled with
    | false => rfl
    | true => exact absurd hp (hguard hflag)
  have h1 := scheduleOne_idle api w s hlive hs
  have h2 : scheduleOne api (scheduleOne api w) = scheduleOne api w :=
    scheduleOne_armed api (scheduleOne api w) { mScheduled := true } (by rw [h1]) rfl
  refine ⟨h2, by rw [h1], by rw [h1]; simp [hp], ?_⟩
  rw [h2, h1]
  simp [hp]

/-- C1 at concrete worlds: an armed toy scheduler is left as it is, and two
requests on a dormant one arm a single handler. -/
theorem scheduleOne_idempotent_while_armed_witness :
    (toyArmed 3 400000 false).self = some { mScheduled := true } ∧
    scheduleOne toyApi (toyArmed 3 400000 false) = toyArmed 3 400000 false ∧
    (toyIdle 3 400000 false).self = some { mScheduled := false } ∧
    (toyIdle 3 400000 false).pending = [] ∧
    scheduleOne toyApi (scheduleOne toyApi (toyIdle 3 400000 false))
      = scheduleOne toyApi (toyIdle 3 400000 false) ∧
    (scheduleOne toyApi (scheduleOne toyApi (toyIdle 3 400000 false))).pending.length = 1 :=
  ⟨rfl,
   (scheduleOne_idempotent_while_armed toyApi (toyArmed 3 400000 false) _ rfl).1 rfl,
   rfl, rfl,
   ((scheduleOne_idempotent_while_armed toyApi (toyIdle 3 400000 false) _ rfl).2
      (fun h => absurd h (by decide)) rfl).1,
   ((scheduleOne_idempotent_while_armed toyApi (toyIdle 3 400000 false) _ rfl).2
      (fun h => absurd h (by decide)) rfl).2.2.2⟩

/-! ## The crank loop -/

theorem afterCranks_succ (api : Work E F) (k : Nat) (app : E) :
    afterCranks api (k + 1) app = (api.crankWork (afterCranks api k app)).1 := by
  induction k generalizing app with
  | zero => rfl
  | succ n ih => 
    show afterCranks api (n + 1) (api.crankWork app).1 = _
    rw [ih]
    rfl

theorem crankLoop_succ_raised (api : Work E F) (yt : YieldTimer) (fuel : Nat) (app : E)
    (calls : List Call) (fault : F) (h : (api.crankWork app).2 = some fault) :
    crankLoop api yt (fuel + 1) app calls =
      ((api.crankWork app).1, calls ++ [Call.crankWork], Status.raised fault) := by
  rcases hc : api.crankWork app with ⟨c, r⟩
  rw [hc] at h
  simp only at h
  subst h
  simp [crankLoop, hc]

theorem crankLoop_succ_stop (api : Work E F) (yt : YieldTimer) (fuel : Nat) (app : E)
    (calls : List Call) (h : (api.crankWork app).2 = none)
    (hstop : ¬ keepsCranking api yt (api.crankWork app).1) :
    crankLoop api yt (fuel + 1) app calls =
      ((api.crankWork app).1, calls ++ [Call.crankWork], Status.returned) := by
  rcases hc : api.crankWork app with ⟨c, r⟩
  rw [hc] at h hstop
  simp only at h hstop
  subst h
  unfold keepsCranking at hstop
  simp [crankLoop, hc, hstop]

theorem crankLoop_succ_go (api : Work E F) (yt : YieldTimer) (fuel : Nat) (app : E)
    (calls : List Call) (h : (api.crankWork app).2 = none)
    (hgo : keepsCranking api yt (api.crankWork app).1) :
    crankLoop api yt (fuel + 1) app calls =
      crankLoop api yt fuel (api.crankWork app).1 (calls ++ [Call.crankWork]) := by
  rcases hc : api.crankWork app with ⟨c, r⟩
  rw [hc] at h hgo
  simp only at h hgo
  subst h
  unfold keepsCranking at hgo
  simp [crankLoop, hc, hgo]

theorem crankLoop_exact (api : Work E F) (yt : YieldTimer) :
    ∀ (n fuel : Nat) (app : E) (calls : List Call), n + 1 ≤ fuel →
      (∀ j, j < n + 1 → (api.crankWork (afterCranks api j app)).2 = none) →
      (∀ j, 1 ≤ j → j < n + 1 → keepsCranking api yt (afterCranks api j app)) →
      ¬ keepsCranking api yt (afterCranks api (n + 1) app) →
      crankLoop api yt fuel app calls =
        (afterCranks api (n + 1) app, calls ++ List.replicate (n + 1) Call.crankWork,
          Status.returned) := by
  intro n
  induction n with
  | zero =>
    intro fuel app calls hfuel hok _ hstop
    obtain ⟨f, rfl⟩ : ∃ f, fuel = f + 1 := ⟨fuel - 1, by omega⟩
    have h0 := hok 0 (by omega)
    exact crankLoop_succ_stop api yt f app calls h0 hstop
  | succ n ih =>
    intro fuel app calls hfuel hok hgo hstop
    obtain ⟨f, rfl⟩ : ∃ f, fuel = f + 1 := ⟨fuel - 1, by omega⟩
    have h0 := hok 0 (by omega)
    have h1 := hgo 1 (by omega) (by omega)
    rw [crankLoop_succ_go api yt f app calls h0 h1]
    rw [ih f (api.crankWork app).1 (calls ++ [Call.crankWork]) (by omega)
      (fun j hj => hok (j + 1) (by omega))
      (fun j hj1 hj => hgo (j + 1) (by omega) (by omega)) hstop]
    simp [afterCranks, List.replicate_succ]

theorem crankLoop_returned (api : Work E F) (yt : YieldTimer) :
    ∀ (fuel : Nat) (app : E) (calls : List Call) (a : E) (c : List Call),
      crankLoop api yt fuel app calls = (a, c, Status.returned) →
      ∃ k, 1 ≤ k ∧ k ≤ fuel ∧ a = afterCranks api k app ∧
        c = calls ++ List.replicate k Call.crankWork ∧
        (∀ j, j < k → (api.crankWork (afterCranks api j app)).2 = none) ∧
        (∀ j, 1 ≤ j → j < k → keepsCranking api yt (afterCranks api j app)) ∧
        ¬ keepsCranking api yt (afterCranks api k app) := by
  intro fuel
  induction fuel with
  | zero => intro app calls a c h; simp [crankLoop] at h
  | succ f ih =>
    intro app calls a c h
    cases hr : (api.crankWork app).2 with
    | some fault => rw [crankLoop_succ_raised api yt f app calls fault hr] at h; simp at h
    | none =>
      by_cases hgo : keepsCranking api yt (api.crankWork app).1
      · rw [crankLoop_succ_go api yt f app calls hr hgo] at h
        obtain ⟨k, hk1, hkf, ha, hc, hok, hkeep, hstop⟩ := ih _ _ a c h
        refine ⟨k + 1, by omega, by omega, ha, ?_, ?_, ?_, hstop⟩
        · rw [hc]; simp [List.replicate_succ]
        · intro j hj
          cases j with
          | zero => exact hr
          | succ j => exact hok j (by omega)
        · intro j hj1 hj
          cases j with
          | zero => omega
          | succ j =>
            cases j with
            | zero => exact hgo
            | succ j => exact hkeep (j + 1) (by omega) (by omega)
      · rw [crankLoop_succ_stop api yt f app calls hr hgo] at h
        simp only [Prod.mk.injEq] at h
        obtain ⟨ha, hc, _⟩ := h
        refine ⟨1, le_refl 1, by omega, ha.symm, by rw [← hc]; rfl, ?_, ?_, hgo⟩
        · intro j hj
          obtain rfl : j = 0 := by omega
          exact hr
        · intro j hj1 hj; omega

theorem crankLoop_raised (api : Work E F) (yt : YieldTimer) :
    ∀ (fuel : Nat) (app : E) (calls : List Call) (a : E) (c : List Call) (fault : F),
      crankLoop api yt fuel app calls = (a, c, Status.raised fault) →
      ∃ n, n < fuel ∧ (api.crankWork (afterCranks api n app)).2 = some fault ∧
        a = afterCranks api (n + 1) app ∧
        c = calls ++ List.replicate (n + 1) Call.crankWork ∧
        (∀ j, j < n → (api.crankWork (afterCranks api j app)).2 = none) ∧
        (∀ j, 1 ≤ j → j < n + 1 → keepsCranking api yt (afterCranks api j app)) := by
  intro fuel
  induction fuel with
  | zero => intro app calls a c fault h; simp [crankLoop] at h
  | succ f ih =>
    intro app calls a c fault h
    cases hr : (api.crankWork app).2 with
    | some fault0 =>
      rw [crankLoop_succ_raised api yt f app calls fault0 hr] at h
      simp only [Prod.mk.injEq, Status.raised.injEq] at h
      obtain ⟨ha, hc, hf⟩ := h
      subst hf
      refine ⟨0, by omega, hr, ha.symm, by rw [← hc]; rfl, ?_, ?_⟩
      · intro j hj; omega
      · intro j hj1 hj; omega
    | none =>
      by_cases hgo : keepsCranking api yt (api.crankWork app).1
      · rw [crankLoop_succ_go api yt f app calls hr hgo] at h
        obtain ⟨n, hnf, hfault, ha, hc, hok, hkeep⟩ := ih _ _ a c fault h
        refine ⟨n + 1, by omega, hfault, ha, ?_, ?_, ?_⟩
        · rw [hc]; simp [List.replicate_succ]
        · intro j hj
          cases j with
          | zero => exact hr
          | succ j => exact hok j (by omega)
        · intro j hj1 hj
          cases j with
          | zero => omega
          | succ j =>
            cases j with
            | zero => exact hgo
            | succ j => exact hkeep (j + 1) (by omega) (by omega)
      · rw [crankLoop_succ_stop api yt f app calls hr hgo] at h
        simp at h

theorem crankLoop_running (api : Work E F) (yt : YieldTimer) :
    ∀ (fuel : Nat) (app : E) (calls : List Call) (a : E) (c : List Call),
      crankLoop api yt fuel app calls = (a, c, Status.running) →
      a = afterCranks api fuel app ∧ c = calls ++ List.replicate fuel Call.crankWork := by
  intro fuel
  induction fuel with
  | zero =>
    intro app calls a c h
    simp only [crankLoop, Prod.mk.injEq] at h
    exact ⟨h.1.symm, by rw [← h.2.1]; simp⟩
  | succ f ih =>
    intro app calls a c h
    cases hr : (api.crankWork app).2 with
    | some fault0 =>
      rw [crankLoop_succ_raised api yt f app calls fault0 hr] at h
      simp at h
    | none =>
      by_cases hgo : keepsCranking api yt (api.crankWork app).1
      · rw [crankLoop_succ_go api yt f app calls hr hgo] at h
        obtain ⟨ha, hc⟩ := ih _ _ a c h
        exact ⟨ha, by rw [hc]; simp [List.replicate_succ]⟩
      · rw [crankLoop_succ_stop api yt f app calls hr hgo] at h
        simp at h

/-- Whatever its outcome, a burst allowed at least one crank begins with a
crank, and records nothing but cranks. -/
theorem crankLoop_calls (api : Work E F) (yt : YieldTimer) (fuel : Nat) (app : E)
    (calls : List Call) :
    ∃ n, n ≤ fuel ∧ (1 ≤ fuel → 1 ≤ n) ∧
      (crankLoop api yt fuel app calls).1 = afterCranks api n app ∧
      (crankLoop api yt fuel app calls).2.1 = calls ++ List.replicate n Call.crankWork := by
  rcases h : crankLoop api yt fuel app calls with ⟨a, c, st⟩
  cases st with
  | running =>
    obtain ⟨ha, hc⟩ := crankLoop_running api yt fuel app calls a c h
    exact ⟨fuel, le_refl _, fun h => h, ha, hc⟩
  | returned =>
    obtain ⟨k, hk1, hkf, ha, hc, _⟩ := crankLoop_returned api yt fuel app calls a c h
    exact ⟨k, hkf, fun _ => hk1, ha, hc⟩
  | raised fault =>
    obtain ⟨n, hnf, _, ha, hc, _⟩ := crankLoop_raised api yt fuel app calls a c fault h
    exact ⟨n + 1, by omega, fun _ => by omega, ha, hc⟩

theorem crankLoop_exact_raised (api : Work E F) (yt : YieldTimer) :
    ∀ (n fuel : Nat) (app : E) (calls : List Call) (fault : F), n < fuel →
      (∀ j, j < n → (api.crankWork (afterCranks api j app)).2 = none) →
      (∀ j, 1 ≤ j → j < n + 1 → keepsCranking api yt (afterCranks api j app)) →
      (api.crankWork (afterCranks api n app)).2 = some fault →
      crankLoop api yt fuel app calls =
        (afterCranks api (n + 1) app, calls ++ List.replicate (n + 1) Call.crankWork,
          Status.raised fault) := by
  intro n
  induction n with
  | zero =>
    intro fuel app calls fault hfuel _ _ hraise
    obtain ⟨f, rfl⟩ : ∃ f, fuel = f + 1 := ⟨fuel - 1, by omega⟩
    exact crankLoop_succ_raised api yt f app calls fault hraise
  | succ n ih =>
    intro fuel app calls fault hfuel hok hgo hraise
    obtain ⟨f, rfl⟩ : ∃ f, fuel = f + 1 := ⟨fuel - 1, by omega⟩
    have h0 := hok 0 (by omega)
    have h1 := hgo 1 (by omega) (by omega)
    rw [crankLoop_succ_go api yt f app calls h0 h1]
    rw [ih f (api.crankWork app).1 (calls ++ [Call.crankWork]) fault (by omega)
      (fun j hj => hok (j + 1) (by omega))
      (fun j hj1 hj => hgo (j + 1) (by omega) (by omega)) hraise]
    simp [afterCranks, List.replicate_succ]

/-! ## The timer handler, by outcome of its burst -/

theorem timerCallback_dead (api : Work E F) (fuel : Nat) (w : World E) (h : w.self = none) :
    timerCallback api fuel w = (w, Status.returned) := by
  simp [timerCallback, h]

theorem timerCallback_of_raised (api : Work E F) (fuel : Nat) (w : World E) (s : WorkScheduler)
    (a : E) (c : List Call) (fault : F) (hlive : w.self = some s)
    (h : crankLoop api (burstTimer api w) fuel w.app w.calls
      = (a, c, Status.raised fault)) :
    timerCallback api fuel w =
      ({ app := a, self := some { mScheduled := false }, pending := w.pending, calls := c },
        Status.raised fault) := by
  simp [timerCallback, hlive, h]

theorem timerCallback_of_running (api : Work E F) (fuel : Nat) (w : World E) (s : WorkScheduler)
    (a : E) (c : List Call) (hlive : w.self = some s)
    (h : crankLoop api (burstTimer api w) fuel w.app w.calls
      = (a, c, Status.running)) :
    timerCallback api fuel w =
      ({ app := a, self := some s, pending := w.pending, calls := c }, Status.running) := by
  simp [timerCallback, hlive, h]

theorem timerCallback_of_returned_running (api : Work E F) (fuel : Nat) (w : World E)
    (s : WorkScheduler) (a : E) (c : List Call) (hlive : w.self = some s)
    (h : crankLoop api (burstTimer api w) fuel w.app w.calls
      = (a, c, Status.returned))
    (hst : api.getState a = State.WORK_RUNNING) :
    timerCallback api fuel w =
      ({ app := a, self := some { mScheduled := true },
         pending := w.pending ++ [api.now a + TRIGGER_PERIOD],
         calls := c ++ [Call.async_wait (api.now a + TRIGGER_PERIOD)] }, Status.returned) := by
  simp [timerCallback, hlive, h, hst, scheduleOne]

theorem timerCallback_of_returned_dormant (api : Work E F) (fuel : Nat) (w : World E)
    (s : WorkScheduler) (a : E) (c : List Call) (hlive : w.self = some s)
    (h : crankLoop api (burstTimer api w) fuel w.app w.calls
      = (a, c, Status.returned))
    (hst : api.getState a ≠ State.WORK_RUNNING) :
    timerCallback api fuel w =
      ({ app := a, self := some { mScheduled := false }, pending := w.pending, calls := c },
        Status.returned) := by
  simp [timerCallback, hlive, h, hst]

/-! ## C2 -/

/-- C2: the guard clears on a fault.  On a live scheduler, take a timer firing
whose crank number `n + 1` raises `fault` (the cranks before it returned and the
loop went on).  Run with enough fuel to reach that crank, the handler ends by
raising that same fault; afterwards `mScheduled` is false, the handler has
registered no new wait (the outstanding handlers are the old ones minus the one
that fired, and the call record grew by cranks only), and a following
`scheduleOne` sets the flag and registers one handler, the only one outstanding
when the fired handler was the only one before. -/
theorem guard_clears_on_fault (api : Work E F) (w : World E) (s : WorkScheduler)
    (fuel i n : Nat) (fault : F)
    (hlive : w.self = some s) (hfuel : n < fuel)
    (hok : ∀ j, j < n → (api.crankWork (afterCranks api j w.app)).2 = none)
    (hgo : ∀ j, 1 ≤ j → j < n + 1 →
      keepsCranking api (burstTimer api w) (afterCranks api j w.app))
    (hraise : (api.crankWork (afterCranks api n w.app)).2 = some fault) :
    (timerFires api fuel i w).2 = Status.raised fault ∧
    (timerFires api fuel i w).1.self = some { mScheduled := false } ∧
    (timerFires api fuel i w).1.pending = w.pending.eraseIdx i ∧
    (timerFires api fuel i w).1.calls = w.calls ++ List.replicate (n + 1) Call.crankWork ∧
    (scheduleOne api (timerFires api fuel i w).1).self = some { mScheduled := true } ∧
    (scheduleOne api (timerFires api fuel i w).1).pending =
      w.pending.eraseIdx i ++ [api.now (afterCranks api (n + 1) w.app) + TRIGGER_PERIOD] ∧
    (w.pending.length = 1 → i = 0 →
      (scheduleOne api (timerFires api fuel i w).1).pending.length = 1) := by
  have hloop := crankLoop_exact_raised api (burstTimer api w) n fuel w.app w.calls fault
    hfuel hok hgo hraise
  have hcb : timerFires api fuel i w =
      ({ app := afterCranks api (n + 1) w.app, self := some { mScheduled := false },
         pending := w.pending.eraseIdx i,
         calls := w.calls ++ List.replicate (n + 1) Call.crankWork }, Status.raised fault) :=
    timerCallback_of_raised api fuel { w with pending := w.pending.eraseIdx i } s _ _ fault
      hlive hloop
  rw [hcb]
  refine ⟨rfl, rfl, rfl, rfl, ?_, ?_, ?_⟩
  · simp [scheduleOne]
  · simp [scheduleOne]
  · intro hlen hi
    subst hi
    simp [scheduleOne, List.length_eraseIdx, hlen]

/-- C2 at a concrete firing: the first crank of an armed toy scheduler raises
fault `7`; the handler raises it, and a new request arms one handler. -/
theorem guard_clears_on_fault_witness :
    (toyArmed 5 400000 true).self = some { mScheduled := true } ∧
    (toyApi.crankWork (afterCranks toyApi 0 (toyArmed 5 400000 true).app)).2 = some 7 ∧
    (timerFires toyApi 10 0 (toyArmed 5 400000 true)).2 = Status.raised 7 ∧
    (timerFires toyApi 10 0 (toyArmed 5 400000 true)).1.self = some { mScheduled := false } ∧
    (timerFires toyApi 10 0 (toyArmed 5 400000 true)).1.pending = [] ∧
    (scheduleOne toyApi (timerFires toyApi 10 0 (toyArmed 5 400000 true)).1).pending.length
      = 1 := by
  have h := guard_clears_on_fault toyApi (toyArmed 5 400000 true) { mScheduled := true }
    10 0 0 7 rfl (by decide) (fun j hj => absurd hj (Nat.not_lt_zero j))
    (fun j h1 h2 => absurd h1 (by omega)) rfl
  exact ⟨rfl, rfl, h.1, h.2.1, h.2.2.1, h.2.2.2.2.2.2 rfl rfl⟩

/-! ## C3 -/

/-- C3: re-arm only while runnable.  On a live scheduler, take a timer firing
whose crank burst has returned without a fault.  If `getState()` after the burst
is `WORK_RUNNING`, then on return `mScheduled` is true and exactly one new wait
was registered (the outstanding handlers are the old ones minus the one that
fired, plus one expiring `TRIGGER_PERIOD` from now; the call record ends in that
single `async_wait`), so exactly one handler is outstanding when the fired one
was the only one before.  Otherwise `mScheduled` is false and no wait was
registered, so none is outstanding when the fired one was the only one. -/
theorem rearm_only_while_runnable (api : Work E F) (w : World E) (s : WorkScheduler)
    (fuel i : Nat) (hlive : w.self = some s)
    (hdone : (timerFires api fuel i w).2 = Status.returned) :
    (api.getState (timerFires api fuel i w).1.app = State.WORK_RUNNING →
      (timerFires api fuel i w).1.self = some { mScheduled := true } ∧
      (timerFires api fuel i w).1.pending =
        w.pending.eraseIdx i ++ [api.now (timerFires api fuel i w).1.app + TRIGGER_PERIOD] ∧
      (∃ k, 1 ≤ k ∧ (timerFires api fuel i w).1.calls =
        w.calls ++ List.replicate k Call.crankWork ++
          [Call.async_wait (api.now (timerFires api fuel i w).1.app + TRIGGER_PERIOD)]) ∧
      (w.pending.length = 1 → i = 0 → (timerFires api fuel i w).1.pending.length = 1)) ∧
    (api.getState (timerFires api fuel i w).1.app ≠ State.WORK_RUNNING →
      (timerFires api fuel i w).1.self = some { mScheduled := false } ∧
      (timerFires api fuel i w).1.pending = w.pending.eraseIdx i ∧
      (∃ k, 1 ≤ k ∧ (timerFires api fuel i w).1.calls =
        w.calls ++ List.replicate k Call.crankWork) ∧
      (w.pending.length = 1 → i = 0 → (timerFires api fuel i w).1.pending = [])) := by
  rcases hloop : crankLoop api (burstTimer api w) fuel w.app w.calls with ⟨a, c, st⟩
  obtain ⟨n, _, hn1, _, hc⟩ := crankLoop_calls api (burstTimer api w) fuel w.app w.calls
  rw [hloop] at hc
  simp only at hc
  have hfuel : 1 ≤ fuel := by
    rcases Nat.eq_zero_or_pos fuel with h0 | h0
    · subst h0
      simp [timerFires, timerCallback, hlive, crankLoop] at hdone
    · exact h0
  have hn := hn1 hfuel
  cases st with
  | running =>
    rw [show timerFires api fuel i w = _ from
      timerCallback_of_running api fuel { w with pending := w.pending.eraseIdx i } s a c
        hlive hloop] at hdone
    simp at hdone
  | raised fault =>
    rw [show timerFires api fuel i w = _ from
      timerCallback_of_raised api fuel { w with pending := w.pending.eraseIdx i } s a c fault
        hlive hloop] at hdone
    simp at hdone
  | returned =>
    by_cases hst : api.getState a = State.WORK_RUNNING
    · rw [show timerFires api fuel i w = _ from
        timerCallback_of_returned_running api fuel { w with pending := w.pending.eraseIdx i }
          s a c hlive hloop hst]
      refine ⟨fun _ => ⟨rfl, rfl, ⟨n, hn, by simp [hc]⟩, ?_⟩, fun h => absurd hst h⟩
      intro hlen hi
      subst hi
      simp [List.length_eraseIdx, hlen]
    · rw [show timerFires api fuel i w = _ from
        timerCallback_of_returned_dormant api fuel { w with pending := w.pending.eraseIdx i }
          s a c hlive hloop hst]
      refine ⟨fun h => absurd h hst, fun _ => ⟨rfl, rfl, ⟨n, hn, by simp [hc]⟩, ?_⟩⟩
      intro hlen hi
      subst hi
      apply List.eq_nil_of_length_eq_zero
      simp [List.length_eraseIdx, hlen]

/-- C3 at concrete firings: a toy burst that leaves the tree runnable re-arms
one handler; one that leaves it waiting arms none. -/
theorem rearm_only_while_runnable_witness :
    (timerFires toyApi 10 0 (toyArmed 5 400000 false)).2 = Status.returned ∧
    toyApi.getState (timerFires toyApi 10 0 (toyArmed 5 400000 false)).1.app
      = State.WORK_RUNNING ∧
    (timerFires toyApi 10 0 (toyArmed 5 400000 false)).1.self = some { mScheduled := true } ∧
    (timerFires toyApi 10 0 (toyArmed 5 400000 false)).1.pending.length = 1 ∧
    (timerFires toyApi 10 0 (toyArmed 2 400000 false)).2 = Status.returned ∧
    toyApi.getState (timerFires toyApi 10 0 (toyArmed 2 400000 false)).1.app
      = State.WORK_WAITING ∧
    (timerFires toyApi 10 0 (toyArmed 2 400000 false)).1.self = some { mScheduled := false } ∧
    (timerFires toyApi 10 0 (toyArmed 2 400000 false)).1.pending = [] := by
  have h := (rearm_only_while_runnable toyApi (toyArmed 5 400000 false) { mScheduled := true }
    10 0 rfl rfl).1 rfl
  have h2 := (rearm_only_while_runnable toyApi (toyArmed 2 400000 false) { mScheduled := true }
    10 0 rfl rfl).2 (by decide)
  exact ⟨rfl, rfl, h.1, h.2.2.2 rfl rfl, rfl, rfl, h2.1, h2.2.2.2 rfl rfl⟩

/-! ## C4 -/

/-- A timer firing whose burst exits after exactly `k` cranks: the outcome. -/
theorem timerFires_exact (api : Work E F) (w : World E) (s : WorkScheduler)
    (fuel i k : Nat) (hlive : w.self = some s) (hk : 1 ≤ k) (hfuel : k ≤ fuel)
    (hok : ∀ j, j < k → (api.crankWork (afterCranks api j w.app)).2 = none)
    (hgo : ∀ j, 1 ≤ j → j < k →
      keepsCranking api (burstTimer api w) (afterCranks api j w.app))
    (hstop : ¬ keepsCranking api (burstTimer api w) (afterCranks api k w.app)) :
    timerFires api fuel i w =
      (if api.getState (afterCranks api k w.app) = State.WORK_RUNNING then
        { app := afterCranks api k w.app, self := some { mScheduled := true },
          pending := w.pending.eraseIdx i
            ++ [api.now (afterCranks api k w.app) + TRIGGER_PERIOD],
          calls := w.calls ++ List.replicate k Call.crankWork
            ++ [Call.async_wait (api.now (afterCranks api k w.app) + TRIGGER_PERIOD)] }
      else
        { app := afterCranks api k w.app, self := some { mScheduled := false },
          pending := w.pending.eraseIdx i,
          calls := w.calls ++ List.replicate k Call.crankWork }, Status.returned) := by
  obtain ⟨n, rfl⟩ : ∃ n, k = n + 1 := ⟨k - 1, by omega⟩
  have hloop := crankLoop_exact api (burstTimer api w) n fuel w.app w.calls hfuel hok hgo hstop
  by_cases hst : api.getState (afterCranks api (n + 1) w.app) = State.WORK_RUNNING
  · rw [if_pos hst]
    exact timerCallback_of_returned_running api fuel { w with pending := w.pending.eraseIdx i }
      s _ _ hlive hloop hst
  · rw [if_neg hst]
    exact timerCallback_of_returned_dormant api fuel { w with pending := w.pending.eraseIdx i }
      s _ _ hlive hloop hst

/-- C4 (as amended): bounded burst.  On a live scheduler, take a timer firing
and a `k >= 1` such that none of the first `k` cranks raises, the loop
condition holds after each of the cranks `1 .. k-1`, and fails after crank `k`
(`getState()` is not `WORK_RUNNING`, or `shouldKeepGoing()` answers false):
`k` is then the least such number, and the burst, given fuel for `k` cranks,
returns after exactly `k` `crankWork` calls.  In particular, when the tree stays
`WORK_RUNNING` for `N` cranks and the clock first passes the 1 ms allotment after
`k < N` cranks, the burst makes exactly `k` cranks, and the handler returns with
the flag set again and exactly one new wait registered. -/
theorem bounded_burst (api : Work E F) (w : World E) (s : WorkScheduler)
    (fuel i : Nat) (hlive : w.self = some s) :
    (∀ k, 1 ≤ k → k ≤ fuel →
      (∀ j, j < k → (api.crankWork (afterCranks api j w.app)).2 = none) →
      (∀ j, 1 ≤ j → j < k → keepsCranking api (burstTimer api w) (afterCranks api j w.app)) →
      ¬ keepsCranking api (burstTimer api w) (afterCranks api k w.app) →
      (timerFires api fuel i w).2 = Status.returned ∧
      (timerFires api fuel i w).1.app = afterCranks api k w.app ∧
      (timerFires api fuel i w).1.calls.count Call.crankWork
        = w.calls.count Call.crankWork + k ∧
      (timerFires api fuel i w).1.calls = w.calls ++ List.replicate k Call.crankWork ++
        (if api.getState (afterCranks api k w.app) = State.WORK_RUNNING then
          [Call.async_wait (api.now (afterCranks api k w.app) + TRIGGER_PERIOD)] else [])) ∧
    (∀ k N, k < N → k ≤ fuel →
      (∀ j, j < k → (api.crankWork (afterCranks api j w.app)).2 = none) →
      (∀ j, 1 ≤ j → j ≤ N → api.getState (afterCranks api j w.app) = State.WORK_RUNNING) →
      (∀ j, j < k → api.now (afterCranks api j w.app) - api.now w.app < milliseconds 1) →
      milliseconds 1 ≤ api.now (afterCranks api k w.app) - api.now w.app →
      (timerFires api fuel i w).2 = Status.returned ∧
      (timerFires api fuel i w).1.calls = w.calls ++ List.replicate k Call.crankWork ++
        [Call.async_wait (api.now (afterCranks api k w.app) + TRIGGER_PERIOD)] ∧
      (timerFires api fuel i w).1.self = some { mScheduled := true } ∧
      (timerFires api fuel i w).1.pending =
        w.pending.eraseIdx i ++ [api.now (afterCranks api k w.app) + TRIGGER_PERIOD]) := by
  constructor
  · intro k hk hfuel hok hgo hstop
    rw [timerFires_exact api w s fuel i k hlive hk hfuel hok hgo hstop]
    by_cases hst : api.getState (afterCranks api k w.app) = State.WORK_RUNNING
    · simp [hst, List.count_append, List.count_replicate]
    · simp [hst, List.count_append, List.count_replicate]
  · intro k N hkN hfuel hok hrun hearly hlate
    have hk : 1 ≤ k := by
      rcases Nat.eq_zero_or_pos k with h0 | h0
      · subst h0
        simp [afterCranks, milliseconds] at hlate
      · exact h0
    have hgo : ∀ j, 1 ≤ j → j < k →
        keepsCranking api (burstTimer api w) (afterCranks api j w.app) := by
      intro j hj1 hjk
      exact ⟨hrun j hj1 (by omega), by
        simp only [YieldTimer.shouldKeepGoing, burstTimer, decide_eq_true_eq]
        exact hearly j hjk⟩
    have hstop : ¬ keepsCranking api (burstTimer api w) (afterCranks api k w.app) := by
      intro h
      have h2 := h.2
      simp only [YieldTimer.shouldKeepGoing, burstTimer, decide_eq_true_eq] at h2
      omega
    have hst := hrun k hk (by omega)
    rw [timerFires_exact api w s fuel i k hlive hk hfuel hok hgo hstop]
    simp [hst]

/-- C4 at a concrete firing: a toy tree that stays runnable for 4 cranks of
0.4 ms each; the clock passes the 1 ms allotment after 3 cranks, the burst makes
3 cranks and re-arms. -/
theorem bounded_burst_witness :
    (toyArmed 5 400000 false).self = some { mScheduled := true } ∧
    ¬ keepsCranking toyApi (burstTimer toyApi (toyArmed 5 400000 false))
      (afterCranks toyApi 3 (toyArmed 5 400000 false).app) ∧
    (timerFires toyApi 10 0 (toyArmed 5 400000 false)).1.calls.count Call.crankWork
      = (toyArmed 5 400000 false).calls.count Call.crankWork + 3 ∧
    (timerFires toyApi 10 0 (toyArmed 5 400000 false)).2 = Status.returned ∧
    (timerFires toyApi 10 0 (toyArmed 5 400000 false)).1.calls =
      (toyArmed 5 400000 false).calls ++ List.replicate 3 Call.crankWork ++
        [Call.async_wait (toyApi.now (afterCranks toyApi 3 (toyArmed 5 400000 false).app)
          + TRIGGER_PERIOD)] ∧
    (timerFires toyApi 10 0 (toyArmed 5 400000 false)).1.self = some { mScheduled := true } := by
  have h1 := (bounded_burst toyApi (toyArmed 5 400000 false) { mScheduled := true } 10 0 rfl).1
    3 (by decide) (by decide) (by decide) (by decide) (by decide)
  have h := (bounded_burst toyApi (toyArmed 5 400000 false) { mScheduled := true } 10 0 rfl).2
    3 4 (by decide) (by decide) (by decide) (by decide) (by decide) (by decide)
  exact ⟨rfl, by decide, h1.2.2.1, h.1, h.2.1, h.2.2.1⟩

/-- C4, a firing the claim as first stated gets wrong: the first crank of an
armed toy scheduler raises.  The burst has ended (the handler raised), but the
number of `crankWork` calls it made is not a `k >= 1` after whose crank
`getState()` is not `WORK_RUNNING` or the budget guard answers false: it made one
call, and after it the state is `WORK_RUNNING` with the budget unspent. -/
theorem bounded_burst_counterexample :
    (toyArmed 5 400000 true).self = some { mScheduled := true } ∧
    (timerFires toyApi 10 0 (toyArmed 5 400000 true)).2 = Status.raised 7 ∧
    ¬ (∀ k, (timerFires toyApi 10 0 (toyArmed 5 400000 true)).1.calls =
          (toyArmed 5 400000 true).calls ++ List.replicate k Call.crankWork →
        1 ≤ k ∧
        (toyApi.getState (afterCranks toyApi k (toyArmed 5 400000 true).app)
            ≠ State.WORK_RUNNING ∨
          (burstTimer toyApi (toyArmed 5 400000 true)).shouldKeepGoing
            (toyApi.now (afterCranks toyApi k (toyArmed 5 400000 true).app)) = false)) := by
  refine ⟨rfl, rfl, fun h => ?_⟩
  rcases (h 1 rfl).2 with h1 | h1
  · exact h1 rfl
  · exact absurd h1 (by decide)

/-! ## C5 -/

/-- C5: stale reference.  When the weak reference does not resolve, `scheduleOne`
and the timer handler leave the world as it is (no crank, no flag written, no
wait registered) and the handler returns without a fault; a firing only takes
the handler off the reactor queue.  In particular, after a successful
`scheduleOne` on a live scheduler followed by its destruction, the firing of the
handler just registered adds no call to the record and raises nothing. -/
theorem stale_reference_noop (api : Work E F) (w : World E) (fuel i : Nat) :
    (w.self = none →
      scheduleOne api w = w ∧
      timerCallback api fuel w = (w, Status.returned) ∧
      timerFires api fuel i w = ({ w with pending := w.pending.eraseIdx i }, Status.returned)) ∧
    (∀ s, w.self = some s → s.mScheduled = false →
      (scheduleOne api w).pending = w.pending ++ [api.now w.app + TRIGGER_PERIOD] ∧
      timerFires api fuel w.pending.length (destroy (scheduleOne api w)) =
        ({ app := w.app, self := none, pending := w.pending,
           calls := (scheduleOne api w).calls }, Status.returned)) := by
  constructor
  · intro hdead
    exact ⟨scheduleOne_dead api w hdead, timerCallback_dead api fuel w hdead,
      timerCallback_dead api fuel { w with pending := w.pending.eraseIdx i } hdead⟩
  · intro s hlive hs
    have h1 := scheduleOne_idle api w s hlive hs
    refine ⟨by rw [h1], ?_⟩
    rw [h1]
    simp [timerFires, destroy, timerCallback,
      List.eraseIdx_append_of_length_le (le_refl w.pending.length)]

/-- C5 at concrete worlds: a destroyed toy scheduler, and a toy scheduler armed
then destroyed before its handler runs. -/
theorem stale_reference_noop_witness :
    (destroy (toyIdle 5 400000 true)).self = none ∧
    scheduleOne toyApi (destroy (toyIdle 5 400000 true)) = destroy (toyIdle 5 400000 true) ∧
    (toyIdle 5 400000 true).self = some { mScheduled := false } ∧
    timerFires toyApi 10 0 (destroy (scheduleOne toyApi (toyIdle 5 400000 true))) =
      ({ app := (toyIdle 5 400000 true).app, self := none, pending := [],
         calls := [Call.async_wait 50001000] }, Status.returned) :=
  ⟨rfl,
   ((stale_reference_noop toyApi (destroy (toyIdle 5 400000 true)) 10 0).1 rfl).1,
   rfl,
   ((stale_reference_noop toyApi (toyIdle 5 400000 true) 10 0).2 _ rfl rfl).2⟩

/-! ## C6 -/

/-- A handler run on a live scheduler with fuel for at least one crank starts
with a `crankWork` call. -/
theorem timerCallback_cranks (api : Work E F) (fuel : Nat) (w : World E) (s : WorkScheduler)
    (hlive : w.self = some s) (hfuel : 1 ≤ fuel) :
    ∃ rest, (timerCallback api fuel w).1.calls = w.calls ++ Call.crankWork :: rest := by
  rcases hloop : crankLoop api (burstTimer api w) fuel w.app w.calls with ⟨a, c, st⟩
  obtain ⟨n, _, hn1, _, hc⟩ := crankLoop_calls api (burstTimer api w) fuel w.app w.calls
  rw [hloop] at hc
  simp only at hc
  obtain ⟨m, rfl⟩ : ∃ m, n = m + 1 := ⟨n - 1, by have := hn1 hfuel; omega⟩
  cases st with
  | running =>
    rw [timerCallback_of_running api fuel w s a c hlive hloop]
    exact ⟨List.replicate m Call.crankWork, by simp [hc, List.replicate_succ]⟩
  | raised fault =>
    rw [timerCallback_of_raised api fuel w s a c fault hlive hloop]
    exact ⟨List.replicate m Call.crankWork, by simp [hc, List.replicate_succ]⟩
  | returned =>
    by_cases hst : api.getState a = State.WORK_RUNNING
    · rw [timerCallback_of_returned_running api fuel w s a c hlive hloop hst]
      exact ⟨List.replicate m Call.crankWork ++ [Call.async_wait (api.now a + TRIGGER_PERIOD)],
        by simp [hc, List.replicate_succ]⟩
    · rw [timerCallback_of_returned_dormant api fuel w s a c hlive hloop hst]
      exact ⟨List.replicate m Call.crankWork, by simp [hc, List.replicate_succ]⟩

/-- What `shutdown` does on a live scheduler that is not done. -/
theorem shutdown_not_done (api : Work E F) (w : World E) (s : WorkScheduler)
    (hlive : w.self = some s) (hnd : api.isDone w.app = false) :
    shutdown api w =
      scheduleOne api { w with app := api.shutdown w.app, calls := w.calls ++ [Call.shutdown] } := by
  simp [shutdown, hlive, hnd]

/-- C6: shutdown drains a dormant scheduler.  On a live scheduler that is not
done, with `mScheduled` false and no handler outstanding (whatever the state of
the tree, `WORK_WAITING` included), `shutdown()` calls `Work::shutdown`, then
sets the flag and registers exactly one handler; when that handler fires on the
still-live scheduler, with fuel for at least one crank, the first thing recorded
is a `crankWork` call.  More generally, on every live scheduler that is not done
and whose flag is set only while a handler is outstanding, after `shutdown()` the
flag is set and a handler is outstanding; exactly one when the flag was set
exactly while one handler was outstanding. -/
theorem shutdown_drains_dormant (api : Work E F) (w : World E) (s : WorkScheduler)
    (hlive : w.self = some s) (hnd : api.isDone w.app = false) :
    (s.mScheduled = false → w.pending = [] →
      shutdown api w =
        { app := api.shutdown w.app, self := some { mScheduled := true },
          pending := [api.now (api.shutdown w.app) + TRIGGER_PERIOD],
          calls := w.calls ++ [Call.shutdown,
            Call.async_wait (api.now (api.shutdown w.app) + TRIGGER_PERIOD)] } ∧
      ∀ fuel, 1 ≤ fuel → ∃ rest,
        (timerFires api fuel 0 (shutdown api w)).1.calls =
          (shutdown api w).calls ++ Call.crankWork :: rest) ∧
    ((s.mScheduled = true → w.pending ≠ []) →
      (shutdown api w).app = api.shutdown w.app ∧
      (shutdown api w).self = some { mScheduled := true } ∧
      (shutdown api w).pending ≠ []) ∧
    ((s.mScheduled = true ↔ w.pending.length = 1) → w.pending.length ≤ 1 →
      (shutdown api w).pending.length = 1) := by
  have hsd := shutdown_not_done api w s hlive hnd
  have hidle := scheduleOne_idle api
    { w with app := api.shutdown w.app, calls := w.calls ++ [Call.shutdown] } s hlive
  have harmed := scheduleOne_armed api
    { w with app := api.shutdown w.app, calls := w.calls ++ [Call.shutdown] } s hlive
  refine ⟨fun hs hp => ?_, fun hinv => ?_, fun hinv hle => ?_⟩
  · have heq : shutdown api w =
        { app := api.shutdown w.app, self := some { mScheduled := true },
          pending := [api.now (api.shutdown w.app) + TRIGGER_PERIOD],
          calls := w.calls ++ [Call.shutdown,
            Call.async_wait (api.now (api.shutdown w.app) + TRIGGER_PERIOD)] } := by
      rw [hsd, hidle hs]
      simp [hp]
    refine ⟨heq, fun fuel hfuel => ?_⟩
    have hl : (shutdown api w).self = some { mScheduled := true } := by rw [heq]
    exact timerCallback_cranks api fuel
      { shutdown api w with pending := (shutdown api w).pending.eraseIdx 0 } _ hl hfuel
  · cases hs : s.mScheduled with
    | true =>
      rw [hsd, harmed hs]
      exact ⟨rfl, by simp [hlive, ← hs], hinv hs⟩
    | false =>
      rw [hsd, hidle hs]
      exact ⟨rfl, rfl, by simp⟩
  · cases hs : s.mScheduled with
    | true =>
      rw [hsd, harmed hs]
      exact hinv.1 hs
    | false =>
      rw [hsd, hidle hs]
      have hne : w.pending.length ≠ 1 := fun h => by
        have := hinv.2 h
        rw [hs] at this
        exact Bool.noConfusion this
      simp only [List.length_append, List.length_singleton]
      omega

/-- C6 at a concrete world: a dormant toy scheduler with a waiting tree is shut
down; one handler is armed, and its firing cranks. -/
theorem shutdown_drains_dormant_witness :
    (toyIdle 0 400000 false).self = some { mScheduled := false } ∧
    toyApi.isDone (toyIdle 0 400000 false).app = false ∧
    toyApi.getState (toyIdle 0 400000 false).app = State.WORK_WAITING ∧
    (shutdown toyApi (toyIdle 0 400000 false)).self = some { mScheduled := true } ∧
    (shutdown toyApi (toyIdle 0 400000 false)).pending.length = 1 ∧
    (∃ rest, (timerFires toyApi 10 0 (shutdown toyApi (toyIdle 0 400000 false))).1.calls =
      (shutdown toyApi (toyIdle 0 400000 false)).calls ++ Call.crankWork :: rest) := by
  have h := shutdown_drains_dormant toyApi (toyIdle 0 400000 false) { mScheduled := false }
    rfl rfl
  exact ⟨rfl, rfl, rfl, (h.2.1 (fun hs => absurd hs (by decide))).2.1,
    h.2.2 (by decide) (by decide), (h.1 rfl rfl).2 10 (by decide)⟩

/-! ## C7 -/

/-- C7: shutdown on a terminal scheduler performs no action.  On a live
scheduler with `isDone()` true, `shutdown()` returns the world unchanged: the
collaborators' state and the call record are the same (no `Work::shutdown`
call), `mScheduled` is the same, and the outstanding handlers are the same (no
wait registered). -/
theorem shutdown_done_noop (api : Work E F) (w : World E) (s : WorkScheduler)
    (hlive : w.self = some s) (hdone : api.isDone w.app = true) :
    shutdown api w = w ∧
    (shutdown api w).app = w.app ∧
    (shutdown api w).calls = w.calls ∧
    (shutdown api w).self = some s ∧
    (shutdown api w).pending = w.pending := by
  have hw : shutdown api w = w := by
    unfold shutdown
    rw [hlive]
    exact if_pos hdone
  rw [hw]
  exact ⟨rfl, rfl, rfl, hlive, rfl⟩

/-- C7 at concrete worlds: a finished toy scheduler, dormant or armed. -/
theorem shutdown_done_noop_witness :
    toyDone.self = some { mScheduled := false } ∧ toyApi.isDone toyDone.app = true ∧
    shutdown toyApi toyDone = toyDone ∧
    shutdown toyApi (scheduleOne toyApi toyDone) = scheduleOne toyApi toyDone :=
  ⟨rfl, rfl, (shutdown_done_noop toyApi toyDone _ rfl rfl).1,
   (shutdown_done_noop toyApi (scheduleOne toyApi toyDone) _ rfl rfl).1⟩

/-! ## C8 -/

/-- On a live scheduler, a handler that has ended either leaves the flag clear
and the queue as it found it, or leaves the flag set with one more handler. -/
theorem timerCallback_ended (api : Work E F) (fuel : Nat) (w : World E) (s : WorkScheduler)
    (hlive : w.self = some s) (hend : (timerCallback api fuel w).2 ≠ Status.running) :
    ((timerCallback api fuel w).1.self = some { mScheduled := false } ∧
      (timerCallback api fuel w).1.pending = w.pending) ∨
    ((timerCallback api fuel w).1.self = some { mScheduled := true } ∧
      ∃ t, (timerCallback api fuel w).1.pending = w.pending ++ [t]) := by
  rcases hloop : crankLoop api (burstTimer api w) fuel w.app w.calls with ⟨a, c, st⟩
  cases st with
  | running =>
    rw [timerCallback_of_running api fuel w s a c hlive hloop] at hend
    exact absurd rfl hend
  | raised fault =>
    rw [timerCallback_of_raised api fuel w s a c fault hlive hloop]
    exact Or.inl ⟨rfl, rfl⟩
  | returned =>
    by_cases hst : api.getState a = State.WORK_RUNNING
    · rw [timerCallback_of_returned_running api fuel w s a c hlive hloop hst]
      exact Or.inr ⟨rfl, _, rfl⟩
    · rw [timerCallback_of_returned_dormant api fuel w s a c hlive hloop hst]
      exact Or.inl ⟨rfl, rfl⟩

/-- The guard is either idle (flag clear, nothing outstanding) or armed (flag
set, one handler outstanding), and every operation keeps it so. -/
theorem step_guard (api : Work E F) (w w1 : World E) (hs : Step api w w1)
    (h : (w.self = some { mScheduled := false } ∧ w.pending = []) ∨
      (w.self = some { mScheduled := true } ∧ ∃ t, w.pending = [t])) :
    (w1.self = some { mScheduled := false } ∧ w1.pending = []) ∨
      (w1.self = some { mScheduled := true } ∧ ∃ t, w1.pending = [t]) := by
  have hsched : ∀ v : World E,
      ((v.self = some { mScheduled := false } ∧ v.pending = []) ∨
        (v.self = some { mScheduled := true } ∧ ∃ t, v.pending = [t])) →
      ((scheduleOne api v).self = some { mScheduled := true } ∧
        ∃ t, (scheduleOne api v).pending = [t]) := by
    intro v hv
    rcases hv with ⟨hself, hp⟩ | ⟨hself, t, hp⟩
    · rw [scheduleOne_idle api v _ hself rfl]
      exact ⟨rfl, api.now v.app + TRIGGER_PERIOD, by simp [hp]⟩
    · rw [scheduleOne_armed api v _ hself rfl]
      exact ⟨hself, t, hp⟩
  cases hs with
  | scheduleOne => exact Or.inr (hsched w h)
  | timerFires fuel i hi hend =>
    rcases h with ⟨_, hp⟩ | ⟨hself, t, hp⟩
    · rw [hp] at hi
      exact absurd hi (Nat.not_lt_zero i)
    · have hi0 : i = 0 := by rw [hp] at hi; simpa using hi
      subst hi0
      have hq : w.pending.eraseIdx 0 = [] := by rw [hp]; rfl
      have := timerCallback_ended api fuel { w with pending := w.pending.eraseIdx 0 } _
        hself hend
      rcases this with ⟨h1, h2⟩ | ⟨h1, t1, h2⟩
      · exact Or.inl ⟨h1, by rw [show (timerFires api fuel 0 w).1.pending = _ from h2]; exact hq⟩
      · exact Or.inr ⟨h1, t1, by
          rw [show (timerFires api fuel 0 w).1.pending = _ from h2]
          show w.pending.eraseIdx 0 ++ [t1] = [t1]
          rw [hq]; rfl⟩
  | shutdown =>
    by_cases hd : api.isDone w.app = true
    · have hw : shutdown api w = w := by
        rcases h with ⟨hself, _⟩ | ⟨hself, _⟩ <;> simp [shutdown, hself, hd]
      rw [hw]
      exact h
    · have hw : shutdown api w = scheduleOne api
          { w with app := api.shutdown w.app, calls := w.calls ++ [Call.shutdown] } := by
        rcases h with ⟨hself, _⟩ | ⟨hself, _⟩ <;> simp [shutdown, hself, hd]
      rw [hw]
      exact Or.inr (hsched _ h)
  | collaborators f => exact h

/-- C8: guard invariant.  In every world reachable from a live scheduler with the
flag clear and no handler outstanding, by any sequence of `scheduleOne` calls,
ended timer firings (returned or raised), `shutdown` calls and changes of the
collaborators' own state, the scheduler is live, `mScheduled` is true if and
only if exactly one handler is outstanding, and there are never two. -/
theorem guard_invariant (api : Work E F) (w0 w : World E)
    (hinit : w0.self = some { mScheduled := false }) (hnone : w0.pending = [])
    (hreach : Reachable api w0 w) :
    ∃ s, w.self = some s ∧ (s.mScheduled = true ↔ w.pending.length = 1) ∧
      w.pending.length ≤ 1 := by
  have key : (w.self = some { mScheduled := false } ∧ w.pending = []) ∨
      (w.self = some { mScheduled := true } ∧ ∃ t, w.pending = [t]) := by
    induction hreach with
    | init => exact Or.inl ⟨hinit, hnone⟩
    | step _ hs ih => exact step_guard api _ _ hs ih
  rcases key with ⟨hself, hp⟩ | ⟨hself, t, hp⟩
  · exact ⟨_, hself, by simp [hp], by simp [hp]⟩
  · exact ⟨_, hself, by simp [hp], by simp [hp]⟩

/-- C8 at a concrete run: a dormant toy scheduler is armed, its handler fires
and re-arms, `scheduleOne` is called again, and the scheduler is shut down. -/
theorem guard_invariant_witness :
    ∃ s, (shutdown toyApi (scheduleOne toyApi
        (timerFires toyApi 10 0 (scheduleOne toyApi (toyIdle 5 400000 false))).1)).self = some s ∧
      (s.mScheduled = true ↔ (shutdown toyApi (scheduleOne toyApi
        (timerFires toyApi 10 0 (scheduleOne toyApi (toyIdle 5 400000 false))).1)).pending.length
          = 1) ∧
      (shutdown toyApi (scheduleOne toyApi
        (timerFires toyApi 10 0 (scheduleOne toyApi (toyIdle 5 400000 false))).1)).pending.length
          ≤ 1 :=
  guard_invariant toyApi (toyIdle 5 400000 false) _ rfl rfl
    (Reachable.step (Reachable.step (Reachable.step (Reachable.step Reachable.init
      (Step.scheduleOne _)) (Step.timerFires _ 10 0 (by decide) (by decide)))
      (Step.scheduleOne _)) (Step.shutdown _))

/-! ## C9 -/

/-- C9: `doWork` policy.  In every world, `doWork()` returns `WORK_RUNNING` when
`anyChildRunning()` is true and `WORK_WAITING` when it is false; the state it
returns is never terminal; and it leaves the world (re-arm flag, outstanding
handlers, call record) as it was. -/
theorem doWork_policy (api : Work E F) (w : World E) :
    (api.anyChildRunning w.app = true → (doWork api w).1 = State.WORK_RUNNING) ∧
    (api.anyChildRunning w.app = false → (doWork api w).1 = State.WORK_WAITING) ∧
    (doWork api w).1.terminal = false ∧
    (doWork api w).1 ≠ State.WORK_SUCCESS ∧ (doWork api w).1 ≠ State.WORK_FAILURE ∧
    (doWork api w).1 ≠ State.WORK_ABORTED ∧
    (doWork api w).2 = w := by
  cases h : api.anyChildRunning w.app <;> simp [doWork, h, State.terminal]

/-- C9 at concrete worlds: a toy tree with runnable work, and one without. -/
theorem doWork_policy_witness :
    toyApi.anyChildRunning (toyIdle 3 400000 false).app = true ∧
    (doWork toyApi (toyIdle 3 400000 false)).1 = State.WORK_RUNNING ∧
    toyApi.anyChildRunning (toyIdle 0 400000 false).app = false ∧
    (doWork toyApi (toyIdle 0 400000 false)).1 = State.WORK_WAITING :=
  ⟨rfl, (doWork_policy toyApi (toyIdle 3 400000 false)).1 rfl,
   rfl, (doWork_policy toyApi (toyIdle 0 400000 false)).2.1 rfl⟩

/-! ## C10 -/

/-- C10: construction.  `create()` makes exactly two calls into its
collaborators, `startWork` with no parent and then `crankWork`, run on the state
`startWork` left; it registers no wait (no `async_wait` in the record, no handler
outstanding).  When the crank does not raise, the scheduler is returned live with
`mScheduled` false; when it raises, the fault leaves `create`. -/
theorem create_calls (api : Work E F) (app : E) :
    (create api app).1.calls = [Call.startWork none, Call.crankWork] ∧
    (create api app).1.app = (api.crankWork (api.startWork none app)).1 ∧
    (create api app).1.pending = [] ∧
    (create api app).2 = (api.crankWork (api.startWork none app)).2 ∧
    ((api.crankWork (api.startWork none app)).2 = none →
      (create api app).1.self = some { mScheduled := false } ∧
      scheduleOne api (create api app).1 ≠ (create api app).1) := by
  rcases hc : api.crankWork (api.startWork none app) with ⟨cranked, r⟩
  cases r with
  | none =>
    have hcr : create api app =
        ({ app := cranked, self := some { mScheduled := false }, pending := [],
           calls := [Call.startWork none, Call.crankWork] }, none) := by
      simp [create, hc]
    rw [hcr]
    refine ⟨rfl, rfl, rfl, rfl, fun _ => ⟨rfl, fun h => ?_⟩⟩
    have := congrArg World.pending h
    simp [scheduleOne] at this
  | some fault =>
    have hcr : create api app =
        ({ app := cranked, self := none, pending := [],
           calls := [Call.startWork none, Call.crankWork] }, some fault) := by
      simp [create, hc]
    rw [hcr]
    exact ⟨rfl, rfl, rfl, rfl, fun h => by simp at h⟩

/-- C10 at a concrete state: creating a toy scheduler. -/
theorem create_calls_witness :
    (toyApi.crankWork (toyApi.startWork none (toyIdle 0 400000 false).app)).2 = none ∧
    (create toyApi (toyIdle 0 400000 false).app).1.calls
      = [Call.startWork none, Call.crankWork] ∧
    (create toyApi (toyIdle 0 400000 false).app).1.self = some { mScheduled := false } :=
  ⟨rfl, (create_calls toyApi (toyIdle 0 400000 false).app).1,
   ((create_calls toyApi (toyIdle 0 400000 false).app).2.2.2.2 rfl).1⟩

/-! ## C11 -/

theorem armedAt_append (xs ys : List Call) : armedAt (xs ++ ys) = armedAt xs ++ armedAt ys := by
  induction xs with
  | nil => rfl
  | cons c cs ih => cases c <;> simp [armedAt, ih]

theorem armedAt_cranks (k : Nat) : armedAt (List.replicate k Call.crankWork) = [] := by
  induction k with
  | zero => rfl
  | succ n ih => simp [List.replicate_succ, armedAt, ih]

theorem now_le_afterCranks (api : Work E F) (hmono : MonotonicClock api) (k : Nat) (app : E) :
    api.now app ≤ api.now (afterCranks api k app) := by
  induction k generalizing app with
  | zero => exact le_refl _
  | succ n ih => exact le_trans (hmono.1 app) (ih (api.crankWork app).1)

/-- On a live scheduler, a handler that has ended made some `k` cranks and either
left the flag clear and registered nothing, or registered one wait expiring
`TRIGGER_PERIOD` after the clock reading that follows the cranks. -/
theorem timerCallback_ended_cranks (api : Work E F) (fuel : Nat) (w : World E)
    (s : WorkScheduler) (hlive : w.self = some s)
    (hend : (timerCallback api fuel w).2 ≠ Status.running) :
    ∃ k,
      ((timerCallback api fuel w).1.self = some { mScheduled := false } ∧
        (timerCallback api fuel w).1.pending = w.pending ∧
        (timerCallback api fuel w).1.app = afterCranks api k w.app ∧
        (timerCallback api fuel w).1.calls = w.calls ++ List.replicate k Call.crankWork) ∨
      ((timerCallback api fuel w).1.self = some { mScheduled := true } ∧
        (timerCallback api fuel w).1.pending =
          w.pending ++ [api.now (afterCranks api k w.app) + TRIGGER_PERIOD] ∧
        (timerCallback api fuel w).1.app = afterCranks api k w.app ∧
        (timerCallback api fuel w).1.calls = w.calls ++ List.replicate k Call.crankWork ++
          [Call.async_wait (api.now (afterCranks api k w.app) + TRIGGER_PERIOD)]) := by
  rcases hloop : crankLoop api (burstTimer api w) fuel w.app w.calls with ⟨a, c, st⟩
  cases st with
  | running =>
    rw [timerCallback_of_running api fuel w s a c hlive hloop] at hend
    exact absurd rfl hend
  | raised fault =>
    obtain ⟨n, _, _, ha, hc, _⟩ := crankLoop_raised api _ fuel w.app w.calls a c fault hloop
    rw [timerCallback_of_raised api fuel w s a c fault hlive hloop]
    exact ⟨n + 1, Or.inl ⟨rfl, rfl, ha, hc⟩⟩
  | returned =>
    obtain ⟨k, _, _, ha, hc, _⟩ := crankLoop_returned api _ fuel w.app w.calls a c hloop
    by_cases hst : api.getState a = State.WORK_RUNNING
    · rw [timerCallback_of_returned_running api fuel w s a c hlive hloop hst]
      subst ha
      exact ⟨k, Or.inr ⟨rfl, rfl, rfl, by rw [hc]⟩⟩
    · rw [timerCallback_of_returned_dormant api fuel w s a c hlive hloop hst]
      exact ⟨k, Or.inl ⟨rfl, rfl, ha, hc⟩⟩

/-- Under a monotonic clock and handlers never invoked early, every operation
keeps: the guard is idle with every expiry registered so far behind the clock,
or armed with every such expiry at most that of the outstanding handler; and any
two registered expiries are at least `TRIGGER_PERIOD` apart, in order. -/
theorem timedStep_spacing (api : Work E F) (hmono : MonotonicClock api) (w w1 : World E)
    (hs : TimedStep api w w1)
    (hsp : List.Pairwise (fun a b => a + TRIGGER_PERIOD ≤ b) (armedAt w.calls))
    (h : (w.self = some { mScheduled := false } ∧ w.pending = [] ∧
        ∀ t ∈ armedAt w.calls, t ≤ api.now w.app) ∨
      (w.self = some { mScheduled := true } ∧
        ∃ t0, w.pending = [t0] ∧ ∀ t ∈ armedAt w.calls, t ≤ t0)) :
    List.Pairwise (fun a b => a + TRIGGER_PERIOD ≤ b) (armedAt w1.calls) ∧
    ((w1.self = some { mScheduled := false } ∧ w1.pending = [] ∧
        ∀ t ∈ armedAt w1.calls, t ≤ api.now w1.app) ∨
      (w1.self = some { mScheduled := true } ∧
        ∃ t0, w1.pending = [t0] ∧ ∀ t ∈ armedAt w1.calls, t ≤ t0)) := by
  -- the effect of `scheduleOne` on a world that satisfies the invariant
  have hsched : ∀ v : World E,
      List.Pairwise (fun a b => a + TRIGGER_PERIOD ≤ b) (armedAt v.calls) →
      ((v.self = some { mScheduled := false } ∧ v.pending = [] ∧
          ∀ t ∈ armedAt v.calls, t ≤ api.now v.app) ∨
        (v.self = some { mScheduled := true } ∧
          ∃ t0, v.pending = [t0] ∧ ∀ t ∈ armedAt v.calls, t ≤ t0)) →
      List.Pairwise (fun a b => a + TRIGGER_PERIOD ≤ b) (armedAt (scheduleOne api v).calls) ∧
      ((scheduleOne api v).self = some { mScheduled := true } ∧
        ∃ t0, (scheduleOne api v).pending = [t0] ∧
          ∀ t ∈ armedAt (scheduleOne api v).calls, t ≤ t0) := by
    intro v hvsp hv
    rcases hv with ⟨hself, hp, hb⟩ | ⟨hself, t0, hp, hb⟩
    · rw [scheduleOne_idle api v _ hself rfl]
      refine ⟨?_, rfl, api.now v.app + TRIGGER_PERIOD, by simp [hp], ?_⟩
      · simp only [armedAt_append, armedAt]
        rw [List.pairwise_append]
        refine ⟨hvsp, List.pairwise_singleton _ _, ?_⟩
        intro a ha b hb1
        simp only [List.mem_singleton] at hb1
        subst hb1
        have := hb a ha
        omega
      · intro t ht
        simp only [armedAt_append, armedAt, List.mem_append, List.mem_singleton] at ht
        rcases ht with ht | ht
        · have := hb t ht
          omega
        · omega
    · rw [scheduleOne_armed api v _ hself rfl]
      exact ⟨hvsp, hself, t0, hp, hb⟩
  cases hs with
  | scheduleOne =>
    obtain ⟨h1, h2⟩ := hsched w hsp h
    exact ⟨h1, Or.inr h2⟩
  | timerFires fuel i hi hdue hend =>
    rcases h with ⟨_, hp, _⟩ | ⟨hself, t0, hp, hb⟩
    · rw [hp] at hi
      exact absurd hi (Nat.not_lt_zero i)
    · have hi0 : i = 0 := by rw [hp] at hi; simpa using hi
      subst hi0
      have hq : w.pending.eraseIdx 0 = [] := by rw [hp]; rfl
      have hdue0 : t0 ≤ api.now w.app := by
        have hget : w.pending.get ⟨0, hi⟩ = t0 := by simp [hp]
        rw [hget] at hdue
        exact hdue
      obtain ⟨k, hk⟩ := timerCallback_ended_cranks api fuel
        { w with pending := w.pending.eraseIdx 0 } _ hself hend
      have hclock := now_le_afterCranks api hmono k w.app
      rcases hk with ⟨h1, h2, h3, h4⟩ | ⟨h1, h2, h3, h4⟩
      · have hcalls : armedAt (timerFires api fuel 0 w).1.calls = armedAt w.calls := by
          rw [show (timerFires api fuel 0 w).1.calls = _ from h4]
          simp [armedAt_append, armedAt_cranks]
        rw [hcalls]
        refine ⟨hsp, Or.inl ⟨h1, by rw [show (timerFires api fuel 0 w).1.pending = _ from h2]; exact hq, ?_⟩⟩
        intro t ht
        rw [show (timerFires api fuel 0 w).1.app = _ from h3]
        have := hb t ht
        exact le_trans this (le_trans hdue0 hclock)
      · have hcalls : armedAt (timerFires api fuel 0 w).1.calls =
            armedAt w.calls ++ [api.now (afterCranks api k w.app) + TRIGGER_PERIOD] := by
          rw [show (timerFires api fuel 0 w).1.calls = _ from h4]
          simp [armedAt_append, armedAt_cranks, armedAt]
        rw [hcalls]
        refine ⟨?_, Or.inr ⟨h1, api.now (afterCranks api k w.app) + TRIGGER_PERIOD, ?_, ?_⟩⟩
        · rw [List.pairwise_append]
          refine ⟨hsp, List.pairwise_singleton _ _, ?_⟩
          intro a ha b hb1
          simp only [List.mem_singleton] at hb1
          subst hb1
          have := hb a ha
          have hc2 : api.now w.app ≤ api.now (afterCranks api k w.app) := hclock
          omega
        · rw [show (timerFires api fuel 0 w).1.pending = _ from h2]
          show w.pending.eraseIdx 0 ++ _ = _
          rw [hq]; rfl
        · intro t ht
          simp only [List.mem_append, List.mem_singleton] at ht
          rcases ht with ht | ht
          · have := hb t ht
            have hc2 : api.now w.app ≤ api.now (afterCranks api k w.app) := hclock
            omega
          · omega
  | shutdown =>
    by_cases hd : api.isDone w.app = true
    · have hw : shutdown api w = w := by
        rcases h with ⟨hself, _⟩ | ⟨hself, _⟩ <;> simp [shutdown, hself, hd]
      rw [hw]
      exact ⟨hsp, h⟩
    · have hw : shutdown api w = scheduleOne api
          { w with app := api.shutdown w.app, calls := w.calls ++ [Call.shutdown] } := by
        rcases h with ⟨hself, _⟩ | ⟨hself, _⟩ <;> simp [shutdown, hself, hd]
      rw [hw]
      have hcalls : armedAt (w.calls ++ [Call.shutdown]) = armedAt w.calls := by
        simp [armedAt_append, armedAt]
      obtain ⟨h1, h2⟩ := hsched
        { w with app := api.shutdown w.app, calls := w.calls ++ [Call.shutdown] }
        (by show List.Pairwise _ (armedAt (w.calls ++ [Call.shutdown])); rw [hcalls]; exact hsp)
        (by
          rcases h with ⟨hself, hp, hb⟩ | ⟨hself, t0, hp, hb⟩
          · refine Or.inl ⟨hself, hp, ?_⟩
            intro t ht
            have ht1 : t ∈ armedAt w.calls := by rw [← hcalls]; exact ht
            exact le_trans (hb t ht1) (hmono.2 w.app)
          · refine Or.inr ⟨hself, t0, hp, ?_⟩
            intro t ht
            have ht1 : t ∈ armedAt w.calls := by rw [← hcalls]; exact ht
            exact hb t ht1)
      exact ⟨h1, Or.inr h2⟩
  | collaborators f hclock =>
    refine ⟨hsp, ?_⟩
    rcases h with ⟨hself, hp, hb⟩ | ⟨hself, t0, hp, hb⟩
    · exact Or.inl ⟨hself, hp, fun t ht => le_trans (hb t ht) hclock⟩
    · exact Or.inr ⟨hself, t0, hp, hb⟩

/-- C11: fire times.  `TRIGGER_PERIOD` is 50 ms.  Every `scheduleOne` that
succeeds (live scheduler, flag clear) registers one wait whose expiry is exactly
the clock reading at the call plus `TRIGGER_PERIOD`.  Consequently, under a
monotonic clock and a reactor that never invokes a handler before its expiry, in
every world reached from a fresh scheduler (flag clear, nothing outstanding, no
wait registered yet) the expiries registered so far, taken in order, are each at
least `TRIGGER_PERIOD` after every earlier one, the previous one included; so
they are strictly increasing. -/
theorem fire_times (api : Work E F) :
    TRIGGER_PERIOD = milliseconds 50 ∧ TRIGGER_PERIOD = 50 * 1000000 ∧
    (∀ (v : World E) (s : WorkScheduler), v.self = some s → s.mScheduled = false →
      (scheduleOne api v).pending = v.pending ++ [api.now v.app + TRIGGER_PERIOD] ∧
      (scheduleOne api v).calls =
        v.calls ++ [Call.async_wait (api.now v.app + TRIGGER_PERIOD)]) ∧
    (MonotonicClock api → ∀ (w0 w : World E),
      w0.self = some { mScheduled := false } → w0.pending = [] → armedAt w0.calls = [] →
      TimedReachable api w0 w →
      List.Pairwise (fun a b => a + TRIGGER_PERIOD ≤ b) (armedAt w.calls) ∧
      List.Pairwise (fun a b => a < b) (armedAt w.calls)) := by
  refine ⟨rfl, rfl, ?_, ?_⟩
  · intro v s hlive hs
    rw [scheduleOne_idle api v s hlive hs]
    exact ⟨rfl, rfl⟩
  · intro hmono w0 w hinit hnone hfresh hreach
    have key : List.Pairwise (fun a b => a + TRIGGER_PERIOD ≤ b) (armedAt w.calls) ∧
        ((w.self = some { mScheduled := false } ∧ w.pending = [] ∧
            ∀ t ∈ armedAt w.calls, t ≤ api.now w.app) ∨
          (w.self = some { mScheduled := true } ∧
            ∃ t0, w.pending = [t0] ∧ ∀ t ∈ armedAt w.calls, t ≤ t0)) := by
      induction hreach with
      | init =>
        rw [hfresh]
        exact ⟨List.Pairwise.nil, Or.inl ⟨hinit, hnone, fun t ht => absurd ht (List.not_mem_nil t)⟩⟩
      | step _ hs ih => exact timedStep_spacing api hmono _ _ hs ih.1 ih.2
    refine ⟨key.1, key.1.imp ?_⟩
    intro a b hab
    have hpos : 0 < TRIGGER_PERIOD := by decide
    omega

/-- C11 at a concrete run: the toy scheduler is armed at clock 1000 (expiry
50001000), fires when due and re-arms after three cranks (expiry 101201000). -/
theorem fire_times_witness :
    MonotonicClock toyApi ∧
    TimedReachable toyApi (toyIdle 5 400000 false) toyRun ∧
    armedAt toyRun.calls = [50001000, 101201000] ∧
    List.Pairwise (fun a b => a + TRIGGER_PERIOD ≤ b) (armedAt toyRun.calls) ∧
    List.Pairwise (fun a b => a < b) (armedAt toyRun.calls) := by
  have hmono : MonotonicClock toyApi := by
    refine ⟨fun t => ?_, fun t => le_refl _⟩
    by_cases hb : t.bomb = true
    · simp [toyApi, hb]
    · simp [toyApi, hb]
  have hreach : TimedReachable toyApi (toyIdle 5 400000 false) toyRun :=
    TimedReachable.step
      (TimedReachable.step
        (TimedReachable.step TimedReachable.init (TimedStep.scheduleOne _))
        (TimedStep.collaborators _ (fun t : Toy => { t with clock := t.clock + 50000000 })
          (by decide)))
      (TimedStep.timerFires _ 10 0 (by decide) (by decide) (by decide))
  have h := (fire_times toyApi).2.2.2 hmono (toyIdle 5 400000 false) toyRun rfl rfl rfl hreach
  exact ⟨hmono, hreach, rfl, h.1, h.2⟩

/-! ## C12 -/

/-- In every world reachable from one with the guard idle, the guard is idle
(flag clear, nothing outstanding) or armed (flag set, one handler outstanding). -/
theorem reachable_idle_or_armed (api : Work E F) (w0 w : World E)
    (hinit : w0.self = some { mScheduled := false }) (hnone : w0.pending = [])
    (hreach : Reachable api w0 w) :
    (w.self = some { mScheduled := false } ∧ w.pending = []) ∨
      (w.self = some { mScheduled := true } ∧ ∃ t, w.pending = [t]) := by
  induction hreach with
  | init => exact Or.inl ⟨hinit, hnone⟩
  | step _ hs ih => exact step_guard api _ _ hs ih

/-- A handler still inside its crank loop has changed nothing but the
collaborators' state and the record of cranks. -/
theorem timerCallback_running (api : Work E F) (fuel : Nat) (w : World E) (s : WorkScheduler)
    (hlive : w.self = some s) (hrun : (timerCallback api fuel w).2 = Status.running) :
    timerCallback api fuel w =
      ({ app := afterCranks api fuel w.app, self := some s, pending := w.pending,
         calls := w.calls ++ List.replicate fuel Call.crankWork }, Status.running) := by
  rcases hloop : crankLoop api (burstTimer api w) fuel w.app w.calls with ⟨a, c, st⟩
  cases st with
  | running =>
    obtain ⟨ha, hc⟩ := crankLoop_running api _ fuel w.app w.calls a c hloop
    rw [timerCallback_of_running api fuel w s a c hlive hloop, ha, hc]
  | raised fault =>
    rw [timerCallback_of_raised api fuel w s a c fault hlive hloop] at hrun
    simp at hrun
  | returned =>
    by_cases hst : api.getState a = State.WORK_RUNNING
    · rw [timerCallback_of_returned_running api fuel w s a c hlive hloop hst] at hrun
      simp at hrun
    · rw [timerCallback_of_returned_dormant api fuel w s a c hlive hloop hst] at hrun
      simp at hrun

/-- A burst that has ended within `n` cranks gives the same outcome with any
larger allowance. -/
theorem crankLoop_mono (api : Work E F) (yt : YieldTimer) (n m : Nat) (app : E)
    (calls : List Call) (hnm : n ≤ m)
    (hend : (crankLoop api yt n app calls).2.2 ≠ Status.running) :
    crankLoop api yt m app calls = crankLoop api yt n app calls := by
  rcases hloop : crankLoop api yt n app calls with ⟨a, c, st⟩
  rw [hloop] at hend
  cases st with
  | running => exact absurd rfl hend
  | raised fault =>
    obtain ⟨j, hj, hraise, ha, hc, hok, hgo⟩ := crankLoop_raised api yt n app calls a c fault hloop
    rw [crankLoop_exact_raised api yt j m app calls fault (by omega) hok hgo hraise, ha, hc]
  | returned =>
    obtain ⟨k, hk1, hkn, ha, hc, hok, hgo, hstop⟩ := crankLoop_returned api yt n app calls a c hloop
    obtain ⟨j, rfl⟩ : ∃ j, k = j + 1 := ⟨k - 1, by omega⟩
    rw [crankLoop_exact api yt j m app calls (by omega) hok hgo hstop, ha, hc]

/-- A handler that has ended within `n` cranks gives the same outcome with any
larger allowance. -/
theorem timerCallback_mono (api : Work E F) (n m : Nat) (w : World E) (hnm : n ≤ m)
    (hend : (timerCallback api n w).2 ≠ Status.running) :
    timerCallback api m w = timerCallback api n w := by
  cases hself : w.self with
  | none => rw [timerCallback_dead api m w hself, timerCallback_dead api n w hself]
  | some s =>
    have hloop : (crankLoop api (burstTimer api w) n w.app w.calls).2.2 ≠ Status.running := by
      intro hrun
      rcases hl : crankLoop api (burstTimer api w) n w.app w.calls with ⟨a, c, st⟩
      rw [hl] at hrun
      simp only at hrun
      subst hrun
      rw [timerCallback_of_running api n w s a c hself hl] at hend
      exact hend rfl
    have hm := crankLoop_mono api (burstTimer api w) n m w.app w.calls hnm hloop
    simp only [timerCallback, hself, hm]

/-- C12: at most one crank burst in flight.  Take any world reached from a fresh
scheduler (flag clear, nothing outstanding) and a handler outstanding in it that
fires.  Whenever the handler is still inside its crank loop after `fuel` cranks,
it was so after every smaller number of cranks, and at that point `mScheduled`
is true, no handler is outstanding, and the record has grown by cranks only;
and `scheduleOne` issued at that point, whatever state `app` the crank in
progress has put the collaborators in, returns the world unchanged: it arms
nothing.  So no second burst is pending or running while one executes. -/
theorem one_burst_in_flight (api : Work E F) (w0 w : World E)
    (hinit : w0.self = some { mScheduled := false }) (hnone : w0.pending = [])
    (hreach : Reachable api w0 w) (fuel i : Nat) (hi : i < w.pending.length)
    (hrun : (timerFires api fuel i w).2 = Status.running) :
    (∀ n, n ≤ fuel → (timerFires api n i w).2 = Status.running) ∧
    (timerFires api fuel i w).1.self = some { mScheduled := true } ∧
    (timerFires api fuel i w).1.pending = [] ∧
    (timerFires api fuel i w).1.app = afterCranks api fuel w.app ∧
    (timerFires api fuel i w).1.calls = w.calls ++ List.replicate fuel Call.crankWork ∧
    (∀ app : E,
      scheduleOne api { (timerFires api fuel i w).1 with app := app } =
        { (timerFires api fuel i w).1 with app := app }) := by
  have hbefore : ∀ n, n ≤ fuel → (timerFires api n i w).2 = Status.running := by
    intro n hn
    by_contra hne
    have := timerCallback_mono api n fuel { w with pending := w.pending.eraseIdx i } hn hne
    have h2 : (timerFires api fuel i w).2 = (timerFires api n i w).2 := congrArg Prod.snd this
    rw [hrun] at h2
    exact hne h2.symm
  rcases reachable_idle_or_armed api w0 w hinit hnone hreach with ⟨_, hp⟩ | ⟨hself, t, hp⟩
  · rw [hp] at hi
    exact absurd hi (Nat.not_lt_zero i)
  · have hi0 : i = 0 := by rw [hp] at hi; simpa using hi
    subst hi0
    have hq : w.pending.eraseIdx 0 = [] := by rw [hp]; rfl
    have hmid := timerCallback_running api fuel { w with pending := w.pending.eraseIdx 0 } _
      hself hrun
    refine ⟨hbefore, ?_⟩
    rw [show timerFires api fuel 0 w = _ from hmid]
    refine ⟨rfl, hq, rfl, rfl, fun app => ?_⟩
    exact scheduleOne_armed api _ { mScheduled := true } rfl rfl

/-- C12 at a concrete burst: an armed toy scheduler, two cranks into a burst of
three; the flag is set, nothing is outstanding, and `scheduleOne` changes
nothing. -/
theorem one_burst_in_flight_witness :
    Reachable toyApi (toyIdle 5 400000 false) (toyArmed 5 400000 false) ∧
    (timerFires toyApi 2 0 (toyArmed 5 400000 false)).2 = Status.running ∧
    (timerFires toyApi 2 0 (toyArmed 5 400000 false)).1.self = some { mScheduled := true } ∧
    (timerFires toyApi 2 0 (toyArmed 5 400000 false)).1.pending = [] ∧
    scheduleOne toyApi (timerFires toyApi 2 0 (toyArmed 5 400000 false)).1
      = (timerFires toyApi 2 0 (toyArmed 5 400000 false)).1 := by
  have hreach : Reachable toyApi (toyIdle 5 400000 false) (toyArmed 5 400000 false) :=
    Reachable.step Reachable.init (Step.scheduleOne _)
  have h := one_burst_in_flight toyApi (toyIdle 5 400000 false) (toyArmed 5 400000 false)
    rfl rfl hreach 2 0 (by decide) rfl
  exact ⟨hreach, rfl, h.2.1, h.2.2.1,
    h.2.2.2.2.2 (timerFires toyApi 2 0 (toyArmed 5 400000 false)).1.app⟩

/-! ## C13 -/

/-- A timer firing on a live scheduler whose first crank raises: one crank, the
flag cleared, the fault raised. -/
theorem timerFires_first_raises (api : Work E F) (w : World E) (s : WorkScheduler)
    (fuel i : Nat) (fault : F) (hlive : w.self = some s) (hfuel : 1 ≤ fuel)
    (hraise : (api.crankWork w.app).2 = some fault) :
    timerFires api fuel i w =
      ({ app := (api.crankWork w.app).1, self := some { mScheduled := false },
         pending := w.pending.eraseIdx i, calls := w.calls ++ [Call.crankWork] },
        Status.raised fault) := by
  obtain ⟨f, rfl⟩ : ∃ f, fuel = f + 1 := ⟨fuel - 1, by omega⟩
  exact timerCallback_of_raised api (f + 1) { w with pending := w.pending.eraseIdx i } s _ _
    fault hlive (crankLoop_succ_raised api _ f w.app w.calls fault hraise)

/-- A timer firing on a live scheduler whose first crank returns and fails the
loop condition: one crank, the flag cleared, then `scheduleOne` when the state is
`WORK_RUNNING`. -/
theorem timerFires_first_stops (api : Work E F) (w : World E) (s : WorkScheduler)
    (fuel i : Nat) (hlive : w.self = some s) (hfuel : 1 ≤ fuel)
    (hok : (api.crankWork w.app).2 = none)
    (hstop : ¬ keepsCranking api (burstTimer api w) (api.crankWork w.app).1) :
    timerFires api fuel i w =
      (if api.getState (api.crankWork w.app).1 = State.WORK_RUNNING then
        scheduleOne api
          { app := (api.crankWork w.app).1, self := some { mScheduled := false },
            pending := w.pending.eraseIdx i, calls := w.calls ++ [Call.crankWork] }
      else
        { app := (api.crankWork w.app).1, self := some { mScheduled := false },
          pending := w.pending.eraseIdx i, calls := w.calls ++ [Call.crankWork] },
        Status.returned) := by
  obtain ⟨f, rfl⟩ : ∃ f, fuel = f + 1 := ⟨fuel - 1, by omega⟩
  have hloop := crankLoop_succ_stop api (burstTimer api w) f w.app w.calls hok hstop
  by_cases hst : api.getState (api.crankWork w.app).1 = State.WORK_RUNNING
  · rw [if_pos hst]
    have := timerCallback_of_returned_running api (f + 1)
      { w with pending := w.pending.eraseIdx i } s _ _ hlive hloop hst
    rw [show timerFires api (f + 1) i w = _ from this]
    simp [scheduleOne]
  · rw [if_neg hst]
    exact timerCallback_of_returned_dormant api (f + 1)
      { w with pending := w.pending.eraseIdx i } s _ _ hlive hloop hst

/-- C13 (as amended): a done scheduler does not drive itself.  Let the
collaborators keep a done tree done under cranks and never report it
`WORK_RUNNING`.  On a live scheduler with `isDone()` true: `shutdown()` returns
the world unchanged; `scheduleOne` returns it unchanged while the flag is set;
and a timer firing (with fuel for one crank) ends after exactly one `crankWork`
call, with `mScheduled` false, no wait registered, and the tree still done. -/
theorem done_not_rearmed (api : Work E F)
    (hterm : ∀ app, api.isDone app = true → api.getState app ≠ State.WORK_RUNNING)
    (hstay : ∀ app, api.isDone app = true → api.isDone (api.crankWork app).1 = true)
    (w : World E) (s : WorkScheduler) (hlive : w.self = some s)
    (hdone : api.isDone w.app = true) :
    shutdown api w = w ∧
    (s.mScheduled = true → scheduleOne api w = w) ∧
    (∀ fuel i, 1 ≤ fuel →
      (timerFires api fuel i w).2 ≠ Status.running ∧
      (timerFires api fuel i w).1.self = some { mScheduled := false } ∧
      (timerFires api fuel i w).1.pending = w.pending.eraseIdx i ∧
      (timerFires api fuel i w).1.calls = w.calls ++ [Call.crankWork] ∧
      api.isDone (timerFires api fuel i w).1.app = true) := by
  refine ⟨?_, fun hs => scheduleOne_armed api w s hlive hs, fun fuel i hfuel => ?_⟩
  · unfold shutdown
    rw [hlive]
    exact if_pos hdone
  · have hd1 := hstay w.app hdone
    have hnr := hterm _ hd1
    cases hr : (api.crankWork w.app).2 with
    | some fault =>
      rw [timerFires_first_raises api w s fuel i fault hlive hfuel hr]
      exact ⟨by simp, rfl, rfl, rfl, hd1⟩
    | none =>
      rw [timerFires_first_stops api w s fuel i hlive hfuel hr (fun h => hnr h.1), if_neg hnr]
      exact ⟨by simp, rfl, rfl, rfl, hd1⟩

/-- C13 at a concrete world: a handler left outstanding on a finished toy
scheduler fires; one crank, nothing armed. -/
theorem done_not_rearmed_witness :
    toyApi.isDone (toyLater (scheduleOne toyApi toyDone)).app = true ∧
    shutdown toyApi (toyLater (scheduleOne toyApi toyDone))
      = toyLater (scheduleOne toyApi toyDone) ∧
    (timerFires toyApi 10 0 (toyLater (scheduleOne toyApi toyDone))).2 = Status.returned ∧
    (timerFires toyApi 10 0 (toyLater (scheduleOne toyApi toyDone))).1.self
      = some { mScheduled := false } ∧
    (timerFires toyApi 10 0 (toyLater (scheduleOne toyApi toyDone))).1.pending = [] := by
  have hterm : ∀ t, toyApi.isDone t = true → toyApi.getState t ≠ State.WORK_RUNNING := by
    intro t ht
    have h0 : t.todo = 0 := by
      simp only [toyApi, Bool.and_eq_true, decide_eq_true_eq] at ht
      exact ht.2
    simp [toyApi, h0]
    split <;> simp
  have hstay : ∀ t, toyApi.isDone t = true → toyApi.isDone (toyApi.crankWork t).1 = true := by
    intro t ht
    simp only [toyApi, Bool.and_eq_true, decide_eq_true_eq] at ht ⊢
    by_cases hb : t.bomb = true
    · simp [hb, ht.1, ht.2]
    · simp [hb, ht.1, ht.2]
  have h := done_not_rearmed toyApi hterm hstay (toyLater (scheduleOne toyApi toyDone))
    { mScheduled := true } rfl rfl
  exact ⟨rfl, h.1, rfl, (h.2.2 10 0 (by decide)).2.1, (h.2.2 10 0 (by decide)).2.2.1⟩

/-- C13, where the claim as first stated fails: on a finished toy scheduler
(`isDone()` true, flag clear, nothing outstanding) a schedule request does arm a
timer, and when it fires a crank is executed. -/
theorem done_not_rearmed_counterexample :
    toyDone.self = some { mScheduled := false } ∧
    toyApi.isDone toyDone.app = true ∧
    toyDone.pending = [] ∧
    (scheduleOne toyApi toyDone).self = some { mScheduled := true } ∧
    (scheduleOne toyApi toyDone).pending = [50001000] ∧
    (scheduleOne toyApi toyDone).calls = [Call.async_wait 50001000] ∧
    (timerFires toyApi 10 0 (toyLater (scheduleOne toyApi toyDone))).1.calls =
      [Call.async_wait 50001000, Call.crankWork] :=
  ⟨rfl, rfl, rfl, rfl, rfl, rfl, rfl⟩

/-! ## C14 -/

/-- C14: every timer firing on a live scheduler executes at least one
`crankWork`, whatever the state and the budget when it fires: given fuel for one
crank, the first thing the handler records is a crank.  If after the first crank
the state is not `WORK_RUNNING` or the budget guard answers false, the burst has
ended with exactly one crank, and `mScheduled` has been cleared: the handler
leaves the flag false, having raised the fault of the crank or, its state not
being `WORK_RUNNING`, returned; or, the state being `WORK_RUNNING`, it has gone
on from the cleared flag to `scheduleOne`, which registers one new wait. -/
theorem at_least_one_crank (api : Work E F) (w : World E) (s : WorkScheduler)
    (fuel i : Nat) (hlive : w.self = some s) (hfuel : 1 ≤ fuel) :
    (∃ rest, (timerFires api fuel i w).1.calls = w.calls ++ Call.crankWork :: rest) ∧
    ((api.getState (api.crankWork w.app).1 ≠ State.WORK_RUNNING ∨
        (burstTimer api w).shouldKeepGoing (api.now (api.crankWork w.app).1) = false) →
      (timerFires api fuel i w).2 ≠ Status.running ∧
      (timerFires api fuel i w).1.app = (api.crankWork w.app).1 ∧
      (timerFires api fuel i w).1.calls.count Call.crankWork
        = w.calls.count Call.crankWork + 1 ∧
      (∀ fault, (api.crankWork w.app).2 = some fault →
        timerFires api fuel i w =
          ({ app := (api.crankWork w.app).1, self := some { mScheduled := false },
             pending := w.pending.eraseIdx i, calls := w.calls ++ [Call.crankWork] },
            Status.raised fault)) ∧
      ((api.crankWork w.app).2 = none →
        api.getState (api.crankWork w.app).1 ≠ State.WORK_RUNNING →
        timerFires api fuel i w =
          ({ app := (api.crankWork w.app).1, self := some { mScheduled := false },
             pending := w.pending.eraseIdx i, calls := w.calls ++ [Call.crankWork] },
            Status.returned)) ∧
      ((api.crankWork w.app).2 = none →
        api.getState (api.crankWork w.app).1 = State.WORK_RUNNING →
        timerFires api fuel i w =
          (scheduleOne api
            { app := (api.crankWork w.app).1, self := some { mScheduled := false },
              pending := w.pending.eraseIdx i, calls := w.calls ++ [Call.crankWork] },
            Status.returned) ∧
        (timerFires api fuel i w).1.self = some { mScheduled := true } ∧
        (timerFires api fuel i w).1.pending = w.pending.eraseIdx i
          ++ [api.now (api.crankWork w.app).1 + TRIGGER_PERIOD])) := by
  refine ⟨timerCallback_cranks api fuel { w with pending := w.pending.eraseIdx i } s hlive hfuel,
    fun hcond => ?_⟩
  have hstop : ¬ keepsCranking api (burstTimer api w) (api.crankWork w.app).1 := by
    intro hk
    rcases hcond with h | h
    · exact h hk.1
    · rw [hk.2] at h
      exact Bool.noConfusion h
  cases hr : (api.crankWork w.app).2 with
  | some fault =>
    have hf := timerFires_first_raises api w s fuel i fault hlive hfuel hr
    refine ⟨by rw [hf]; simp, by rw [hf], by rw [hf]; simp [List.count_append], ?_, ?_, ?_⟩
    · intro fault1 h1
      rw [hf]
      simp only [Option.some.injEq] at h1
      rw [h1]
    · intro h1; simp at h1
    · intro h1; simp at h1
  | none =>
    have hf := timerFires_first_stops api w s fuel i hlive hfuel hr hstop
    by_cases hst : api.getState (api.crankWork w.app).1 = State.WORK_RUNNING
    · rw [if_pos hst] at hf
      refine ⟨by rw [hf]; simp, by rw [hf]; simp [scheduleOne],
        by rw [hf]; simp [scheduleOne, List.count_append], ?_, ?_, ?_⟩
      · intro fault1 h1; simp at h1
      · intro _ h2; exact absurd hst h2
      · intro _ _
        refine ⟨hf, by rw [hf]; simp [scheduleOne], by rw [hf]; simp [scheduleOne]⟩
    · rw [if_neg hst] at hf
      refine ⟨by rw [hf]; simp, by rw [hf], by rw [hf]; simp [List.count_append], ?_, ?_, ?_⟩
      · intro fault1 h1; simp at h1
      · intro _ _; exact hf
      · intro _ h2; exact absurd h2 hst

/-- C14 at concrete firings: a toy tree with one crank of work left (the state is
waiting after the first crank), and one whose crank takes 2 ms (the budget is
spent after the first crank, the state still running). -/
theorem at_least_one_crank_witness :
    (timerFires toyApi 10 0 (toyArmed 1 400000 false)).1.calls
      = [Call.async_wait 50001000, Call.crankWork] ∧
    (timerFires toyApi 10 0 (toyArmed 1 400000 false)).1.self = some { mScheduled := false } ∧
    (burstTimer toyApi (toyArmed 5 2000000 false)).shouldKeepGoing
      (toyApi.now (toyApi.crankWork (toyArmed 5 2000000 false).app).1) = false ∧
    (timerFires toyApi 10 0 (toyArmed 5 2000000 false)).1.calls.count Call.crankWork = 1 ∧
    (timerFires toyApi 10 0 (toyArmed 5 2000000 false)).1.self = some { mScheduled := true } ∧
    (timerFires toyApi 10 0 (toyArmed 5 2000000 false)).1.pending = [52001000] := by
  have h1 := (at_least_one_crank toyApi (toyArmed 1 400000 false) { mScheduled := true } 10 0
    rfl (by decide)).2 (Or.inl (by decide))
  have h2 := (at_least_one_crank toyApi (toyArmed 5 2000000 false) { mScheduled := true } 10 0
    rfl (by decide)).2 (Or.inr rfl)
  have h1a := h1.2.2.2.2.1 rfl (by decide)
  have h2a := h2.2.2.2.2.2 rfl rfl
  exact ⟨by rw [h1a]; rfl, by rw [h1a], rfl, h2.2.2.1, h2a.2.1, h2a.2.2⟩

end stellar
